import Mathlib

/-!
# Verification of the Persona-Engine trait-mutation pipeline

This file shallowly embeds the core of the Persona-Engine repository:

* the two Persona entity variants
  (`src/core/domain/persona_model.py` → namespace `CoreDomain`,
   `src/core/persona_model.py`        → namespace `CoreModel`),
* the two trait-mutation service variants
  (`src/core/services/persona_domain_service.py` → namespace `Services`,
   `src/core/persona_domain_service.py`          → namespace `LegacyService`),
* the two repository backends
  (`src/adapters/repositories/in_memory_persona_repository.py` → `InMemoryRepo`,
   `src/adapters/repositories/sqlalchemy_persona_repository.py` → `SqlRepo`),
* the use cases (`src/usecases/*.py` → `UseCases`,
  `src/application/*.py` → `AppUseCases`), and
* the two application wirings as state machines
  (`src/app/__init__.py` → `WiringA`, `src/app.py` → `WiringB`).

Python floating point values that the pipeline stores are only ever compared
and copied, never combined arithmetically, so they are modelled as rationals
(`ℚ`); the literals 1.0, 5.0, 3.0 of the source are exact in both
representations.  Values that may be non-numeric (the entity constructors
accept arbitrary Python objects) are modelled by `PVal`, which is either a
rational or an opaque non-numeric value tagged with its Python type name.
Python exceptions become `Except` errors; in-place mutation of a persona
object is modelled by returning the object's post-call state alongside the
result.  Python object identity, where a claim depends on it (the in-memory
store holds references, not copies), is modelled by an explicit reference /
heap model in `InMemoryRepo`.
-/

namespace PersonaEngine

/-- The five recognized Big Five trait names
(`TRAIT_NAMES` in `core/domain/persona_model.py` and `core/persona_model.py`). -/
inductive TraitName where
  | openness
  | conscientiousness
  | extraversion
  | agreeableness
  | neuroticism
deriving DecidableEq, Repr

/-- The order in which `validate_ranges` iterates over `TRAIT_NAMES`. -/
def orderedTraits : List TraitName :=
  [.openness, .conscientiousness, .extraversion, .agreeableness, .neuroticism]

/-- The trait-name strings of the source's `TRAIT_NAMES` tuple. -/
def TRAIT_NAMES : List String :=
  ["openness", "conscientiousness", "extraversion", "agreeableness", "neuroticism"]

/-- Dynamic attribute lookup by trait-name string (`getattr`/`setattr` use
string names in the source): the recognized names map to `TraitName`. -/
def parseTrait (s : String) : Option TraitName :=
  if s = "openness" then some .openness
  else if s = "conscientiousness" then some .conscientiousness
  else if s = "extraversion" then some .extraversion
  else if s = "agreeableness" then some .agreeableness
  else if s = "neuroticism" then some .neuroticism
  else none

/-- `MIN_TRAIT_VALUE = 1.0`. -/
def MIN_TRAIT_VALUE : ℚ := 1

/-- `MAX_TRAIT_VALUE = 5.0`. -/
def MAX_TRAIT_VALUE : ℚ := 5

/-- A Python value supplied for a trait field: either a number
(`int`/`float`, modelled as `ℚ`) or a non-numeric object carrying its
Python type name. -/
inductive PVal where
  | num (q : ℚ)
  | nonNum (tyName : String)
deriving DecidableEq, Repr

/-- The five trait fields of a persona object, each holding an arbitrary
Python value (the constructors perform no coercion before validation). -/
structure PTraits where
  openness : PVal
  conscientiousness : PVal
  extraversion : PVal
  agreeableness : PVal
  neuroticism : PVal
deriving DecidableEq, Repr

/-- `getattr(self, trait)` for a trait name. -/
def PTraits.get (p : PTraits) : TraitName → PVal
  | .openness => p.openness
  | .conscientiousness => p.conscientiousness
  | .extraversion => p.extraversion
  | .agreeableness => p.agreeableness
  | .neuroticism => p.neuroticism

/-- `setattr(self, trait, v)` for a trait name. -/
def PTraits.set (p : PTraits) : TraitName → PVal → PTraits
  | .openness, v => { p with openness := v }
  | .conscientiousness, v => { p with conscientiousness := v }
  | .extraversion, v => { p with extraversion := v }
  | .agreeableness, v => { p with agreeableness := v }
  | .neuroticism, v => { p with neuroticism := v }

/-- Numeric-only trait record: a database row of the `personas` table
(five non-null `Float` columns), used for the relational store state. -/
structure Traits where
  openness : ℚ
  conscientiousness : ℚ
  extraversion : ℚ
  agreeableness : ℚ
  neuroticism : ℚ
deriving DecidableEq, Repr

def Traits.get (p : Traits) : TraitName → ℚ
  | .openness => p.openness
  | .conscientiousness => p.conscientiousness
  | .extraversion => p.extraversion
  | .agreeableness => p.agreeableness
  | .neuroticism => p.neuroticism

def Traits.set (p : Traits) : TraitName → ℚ → Traits
  | .openness, v => { p with openness := v }
  | .conscientiousness, v => { p with conscientiousness := v }
  | .extraversion, v => { p with extraversion := v }
  | .agreeableness, v => { p with agreeableness := v }
  | .neuroticism, v => { p with neuroticism := v }

/-- Inject a numeric row into the Python-value representation. -/
def Traits.toP (p : Traits) : PTraits :=
  { openness := .num p.openness
    conscientiousness := .num p.conscientiousness
    extraversion := .num p.extraversion
    agreeableness := .num p.agreeableness
    neuroticism := .num p.neuroticism }

/-- Extract a numeric row from a persona's trait fields, if all five are
numbers (a non-numeric field cannot be stored in a non-null `Float` column). -/
def PTraits.toQ (p : PTraits) : Option Traits :=
  match p.openness, p.conscientiousness, p.extraversion,
        p.agreeableness, p.neuroticism with
  | .num a, .num b, .num c, .num d, .num e =>
      some { openness := a, conscientiousness := b, extraversion := c,
             agreeableness := d, neuroticism := e }
  | _, _, _, _, _ => none

/-- The default trait record: every trait 3.0. -/
def defaultTraits : Traits :=
  { openness := 3, conscientiousness := 3, extraversion := 3,
    agreeableness := 3, neuroticism := 3 }

/-- Whether a Python value is a number (`isinstance(v, (int, float))`). -/
def PVal.isNum : PVal → Bool
  | .num _ => true
  | .nonNum _ => false

/-- A Python value that is a number lying in `[1.0, 5.0]`. -/
def PVal.okRange : PVal → Bool
  | .num q => decide (MIN_TRAIT_VALUE ≤ q) && decide (q ≤ MAX_TRAIT_VALUE)
  | .nonNum _ => false

/-- `True` iff every trait field is a number lying in `[1.0, 5.0]` —
the data-model invariant of the spec. -/
def PTraits.inRange (p : PTraits) : Bool :=
  orderedTraits.all fun t => (p.get t).okRange

/-- `True` iff every trait of a numeric row lies in `[1.0, 5.0]`. -/
def Traits.inRange (p : Traits) : Bool :=
  orderedTraits.all fun t =>
    decide (MIN_TRAIT_VALUE ≤ p.get t) && decide (p.get t ≤ MAX_TRAIT_VALUE)

/-- One entry of a combined validation error message: what the entry names.
`range t v lo hi` renders as `"{t} ({v}) must be between {lo} and {hi}"`
(the trait, the value, and both bounds); `notNumber t ty` renders as
`"{t} must be a number, got {ty}"` (the trait and the value's type, but
neither the value nor the bounds). -/
inductive VEntry where
  | range (t : TraitName) (v : ℚ) (lo hi : ℚ)
  | notNumber (t : TraitName) (tyName : String)
deriving DecidableEq, Repr

/-- A Python exception escaping entity validation:
`typeError` models the `TypeError` Python raises when `1.0 <= value` compares
a float with a non-numeric object; `personaValidation es` models
`PersonaValidationError("; ".join(entries))` carrying the combined entries. -/
inductive PyErr where
  | typeError
  | personaValidation (entries : List VEntry)
deriving DecidableEq, Repr

namespace CoreDomain

/-- The validation loop of `Persona.validate_ranges` in
`core/domain/persona_model.py`: for each trait in `TRAIT_NAMES` order it
evaluates `not (MIN_TRAIT_VALUE <= value <= MAX_TRAIT_VALUE)`.  There is no
numeric-type check, so the comparison raises `TypeError` as soon as a
non-numeric value is reached, discarding any entries collected so far;
out-of-range numbers are appended to `invalid_traits`. -/
def validateLoop (p : PTraits) : List TraitName → List VEntry →
    Except PyErr (List VEntry)
  | [], acc => .ok acc
  | t :: rest, acc =>
    match p.get t with
    | .nonNum _ => .error .typeError
    | .num q =>
      if q < MIN_TRAIT_VALUE ∨ MAX_TRAIT_VALUE < q then
        validateLoop p rest (acc ++ [.range t q MIN_TRAIT_VALUE MAX_TRAIT_VALUE])
      else
        validateLoop p rest acc

/-- `Persona.validate_ranges` of `core/domain/persona_model.py`: raises
`PersonaValidationError` joining the collected entries when any are present. -/
def validate_ranges (p : PTraits) : Except PyErr Unit :=
  match validateLoop p orderedTraits [] with
  | .error e => .error e
  | .ok [] => .ok ()
  | .ok acc => .error (.personaValidation acc)

/-- The SQLAlchemy-backed entity of `core/domain/persona_model.py`:
a `user_id` plus the five trait fields. -/
structure Persona where
  user_id : String
  traits : PTraits
deriving DecidableEq, Repr

/-- `Persona.__init__` of `core/domain/persona_model.py`: assigns the
supplied values and immediately calls `validate_ranges`, so construction
fails exactly when validation raises. -/
def mkPersona (uid : String) (ts : PTraits) : Except PyErr Persona :=
  match validate_ranges ts with
  | .error e => .error e
  | .ok _ => .ok { user_id := uid, traits := ts }

end CoreDomain

/-- A value held in a non-trait attribute of the legacy dataclass persona
(`metadata` dict, class constants, bound methods, or a number written there
by `setattr`). -/
inductive AVal where
  | numA (q : ℚ)
  | otherA (descr : String)
deriving DecidableEq, Repr

namespace CoreModel

/-- The validation loop of `Persona.validate_ranges` in
`core/persona_model.py`: unlike the `core/domain` variant it first checks
`isinstance(value, (int, float))`, recording a "must be a number" entry for
non-numeric values instead of raising `TypeError`, then records out-of-range
entries; all entries are joined into one `PersonaValidationError`. -/
def validateLoop (p : PTraits) : List TraitName → List VEntry
  | [] => []
  | t :: rest =>
    (match p.get t with
     | .nonNum ty => [VEntry.notNumber t ty]
     | .num q =>
       if q < MIN_TRAIT_VALUE ∨ MAX_TRAIT_VALUE < q then
         [VEntry.range t q MIN_TRAIT_VALUE MAX_TRAIT_VALUE]
       else []) ++ validateLoop p rest

/-- `Persona.validate_ranges` of `core/persona_model.py`. -/
def validate_ranges (p : PTraits) : Except PyErr Unit :=
  match validateLoop p orderedTraits with
  | [] => .ok ()
  | es => .error (.personaValidation es)

/-- The legacy dataclass persona of `core/persona_model.py`: the five trait
fields plus its other attributes (the `metadata` field; further instance
attributes may be added by `setattr`).  The attribute list models the
instance `__dict__`; `hasattr`/`getattr` additionally see the class-level
attributes listed in `classAttrs`.  Note this class has no `id` and no
`user_id` attribute. -/
structure Persona where
  traits : PTraits
  attrs : List (String × AVal)
deriving DecidableEq, Repr

/-- Class-level attributes of the legacy `Persona` dataclass that `hasattr`
finds besides the instance attributes: the three class constants and the
(non-dunder) methods. -/
def classAttrs : List String :=
  ["MIN_TRAIT_VALUE", "MAX_TRAIT_VALUE", "TRAIT_NAMES",
   "validate_ranges", "to_dict"]

/-- The value `getattr` yields for a class-level attribute not shadowed by
an instance attribute. -/
def classAttrVal : String → AVal
  | "MIN_TRAIT_VALUE" => .numA 1
  | "MAX_TRAIT_VALUE" => .numA 5
  | s => .otherA s

/-- Python `hasattr(persona, s)` on a legacy persona: true for the five
trait fields, the instance attributes, and the class attributes.
(Dunder attributes are omitted from the model; no claim mentions them.) -/
def hasattr (p : Persona) (s : String) : Bool :=
  s ∈ TRAIT_NAMES || p.attrs.any (·.1 = s) || s ∈ classAttrs

/-- `getattr(persona, s)` for a non-trait attribute name. -/
def getAttr (p : Persona) (s : String) : AVal :=
  match p.attrs.find? (·.1 = s) with
  | some kv => kv.2
  | none => classAttrVal s

/-- `setattr(persona, s, a)` for a non-trait attribute name: updates the
instance attribute in place, or adds one (shadowing any class attribute). -/
def setAttr (p : Persona) (s : String) (a : AVal) : Persona :=
  if p.attrs.any (·.1 = s) then
    { p with attrs := p.attrs.map fun kv => if kv.1 = s then (s, a) else kv }
  else
    { p with attrs := p.attrs ++ [(s, a)] }

/-- The instance attributes of a freshly constructed legacy persona:
the `metadata` field (a dict). -/
def freshAttrs : List (String × AVal) := [("metadata", .otherA "dict")]

/-- `Persona.__post_init__` of `core/persona_model.py`: runs
`validate_ranges` and re-raises its error, so dataclass construction fails
exactly when validation does. -/
def mkPersona (ts : PTraits) : Except PyErr Persona :=
  match validate_ranges ts with
  | .error e => .error e
  | .ok _ => .ok { traits := ts, attrs := freshAttrs }

end CoreModel

/-- An error raised by `PersonaDomainService.update_trait` in
`core/services/persona_domain_service.py`: `TraitNotFoundError` for an
unrecognized name, or the uncaught exception propagating out of
`validate_ranges`. -/
inductive SErr where
  | traitNotFound
  | validationError (e : PyErr)
deriving DecidableEq, Repr

namespace Services

/-- `PersonaDomainService.update_trait` of
`core/services/persona_domain_service.py`, acting on a `core/domain`
persona.  The guard `trait_name not in Persona.TRAIT_NAMES` is modelled by
`parseTrait` (`parseTrait s = none ↔ s ∉ TRAIT_NAMES`, proved below); on a
recognized name the code does `setattr(persona, trait_name, new_value)` and
then `persona.validate_ranges()`, returning the persona on success and
letting the validation error propagate on failure — there is no restore of
the previous value, so the persona object keeps the rejected value.  The
second component of the result is the persona object's state after the call
(the object is mutated in place). -/
def update_trait (p : CoreDomain.Persona) (t : String) (v : PVal) :
    Except SErr CoreDomain.Persona × CoreDomain.Persona :=
  match parseTrait t with
  | none => (.error .traitNotFound, p)
  | some tn =>
    let p1 : CoreDomain.Persona := { p with traits := p.traits.set tn v }
    match CoreDomain.validate_ranges p1.traits with
    | .ok _ => (.ok p1, p1)
    | .error e => (.error (.validationError e), p1)

/-- The same `update_trait` code acting on a legacy `core/persona_model`
persona — the object the SQLAlchemy repository's `get_persona` actually
hands to it in the `src/app/__init__.py` wiring.  `persona.validate_ranges()`
dispatches dynamically to the legacy validation. -/
def update_trait_on_model (p : CoreModel.Persona) (t : String) (v : PVal) :
    Except SErr CoreModel.Persona × CoreModel.Persona :=
  match parseTrait t with
  | none => (.error .traitNotFound, p)
  | some tn =>
    let p1 : CoreModel.Persona := { p with traits := p.traits.set tn v }
    match CoreModel.validate_ranges p1.traits with
    | .ok _ => (.ok p1, p1)
    | .error e => (.error (.validationError e), p1)

end Services

/-- An error raised by `PersonaDomainService.update_trait` in
`core/persona_domain_service.py`: the `AttributeError` from evaluating
`persona.id` in the entry `logger.debug` f-string, `TraitNotFoundError`,
or `TraitValidationError` wrapping the validation entries. -/
inductive LErr where
  | attributeError
  | traitNotFound
  | traitValidation (e : PyErr)
deriving DecidableEq, Repr

namespace LegacyService

/-- `PersonaDomainService.update_trait` of `core/persona_domain_service.py`,
acting on a legacy persona.  The method's first statement is
`logger.debug(f"... for persona: {persona.id}")`; the f-string evaluates
`persona.id` eagerly, which raises `AttributeError` whenever the persona has
no `id` attribute (neither Persona class defines one), before any other
check runs.  Otherwise: `hasattr(persona, trait_name)` gates
`TraitNotFoundError`; the current value is snapshotted, the attribute set,
`validate_ranges` run; on validation failure the snapshot is restored and
`TraitValidationError` raised; on success the mutated persona is returned.
The second component is the persona object's state after the call. -/
def update_trait (p : CoreModel.Persona) (t : String) (v : PVal) :
    Except LErr CoreModel.Persona × CoreModel.Persona :=
  if ¬ CoreModel.hasattr p "id" then (.error .attributeError, p)
  else if ¬ CoreModel.hasattr p t then (.error .traitNotFound, p)
  else
    match parseTrait t with
    | some tn =>
      let prev := p.traits.get tn
      let p1 : CoreModel.Persona := { p with traits := p.traits.set tn v }
      match CoreModel.validate_ranges p1.traits with
      | .ok _ => (.ok p1, p1)
      | .error e =>
        let p2 : CoreModel.Persona := { p1 with traits := p1.traits.set tn prev }
        (.error (.traitValidation e), p2)
    | none =>
      let prev := CoreModel.getAttr p t
      let p1 := CoreModel.setAttr p t (match v with
        | .num q => .numA q
        | .nonNum ty => .otherA ty)
      match CoreModel.validate_ranges p1.traits with
      | .ok _ => (.ok p1, p1)
      | .error e => (.error (.traitValidation e), CoreModel.setAttr p1 t prev)

end LegacyService

/-- Python-dict insertion semantics on an association list: assigning to an
existing key replaces its value in place (preserving insertion order),
assigning to a fresh key appends.  This is both `self._storage[user_id] =
persona` on the in-memory dict and `_save_or_update_persona`'s
update-or-insert on the relational table (rows read back in rowid order). -/
def dictInsert {α : Type} (s : List (String × α)) (k : String) (v : α) :
    List (String × α) :=
  if s.any (·.1 = k) then
    s.map fun kv => if kv.1 = k then (k, v) else kv
  else
    s ++ [(k, v)]

/-- Dictionary lookup (`dict.get` / primary-key query). -/
def dictGet {α : Type} (s : List (String × α)) (k : String) : Option α :=
  (s.find? (·.1 = k)).map (·.2)

/-- `ValueError` raised by a repository precondition check. -/
inductive ValueErr where
  | valueError (msg : String)
deriving DecidableEq, Repr

namespace InMemoryRepo

/-- `InMemoryPersonaRepository.get_persona` of
`adapters/repositories/in_memory_persona_repository.py` (value level):
raises `ValueError` on an empty `user_id`, otherwise returns
`self._storage.get(user_id)` — the stored object or `None`.  The store maps
user ids to whatever persona objects were saved, so it is polymorphic in the
persona type. -/
def get_persona {α : Type} (s : List (String × α)) (uid : String) :
    Except ValueErr (Option α) :=
  if uid = "" then .error (.valueError "user_id cannot be empty or None")
  else .ok (dictGet s uid)

/-- `InMemoryPersonaRepository.save_persona` (value level): raises
`ValueError` on an empty `user_id` (and on a `None` persona, which cannot be
expressed here), otherwise executes `self._storage[user_id] = persona`. -/
def save_persona {α : Type} (s : List (String × α)) (uid : String) (p : α) :
    Except ValueErr (List (String × α)) :=
  if uid = "" then .error (.valueError "user_id cannot be empty or None")
  else .ok (dictInsert s uid p)

/-- `InMemoryPersonaRepository.list_personas`: `list(self._storage.items())
[offset : offset + limit]` — the `(user_id, persona)` pairs in dict insertion
order, sliced. -/
def list_personas {α : Type} (s : List (String × α)) (limit offset : ℕ) :
    List (String × α) :=
  (s.drop offset).take limit

/-- `list_personas` with the source's default arguments `limit=100, offset=0`. -/
def list_personas_default {α : Type} (s : List (String × α)) :
    List (String × α) :=
  list_personas s 100 0

/-- Reference-level model of the in-memory store for claims about object
identity: a Python dict holds references to persona objects, not copies, so
the store maps user ids to heap references and persona states live in a
separate heap.  `self._storage[user_id] = persona` stores the reference. -/
def save_persona_obj (s : List (String × ℕ)) (uid : String) (r : ℕ) :
    Except ValueErr (List (String × ℕ)) :=
  if uid = "" then .error (.valueError "user_id cannot be empty or None")
  else .ok (dictInsert s uid r)

/-- Reference-level `get_persona`: returns the stored reference itself —
the caller receives the very object that was saved. -/
def get_persona_obj (s : List (String × ℕ)) (uid : String) :
    Except ValueErr (Option ℕ) :=
  if uid = "" then .error (.valueError "user_id cannot be empty or None")
  else .ok (dictGet s uid)

/-- In-place mutation of the persona object behind reference `r`
(e.g. a `setattr` done by the domain service or by any holder of the
object): the heap is updated at `r`, no repository call involved. -/
def mutateObj (heap : ℕ → CoreModel.Persona) (r : ℕ)
    (p : CoreModel.Persona) : ℕ → CoreModel.Persona :=
  fun x => if x = r then p else heap x

end InMemoryRepo

/-- `DatabaseError` of
`adapters/repositories/sqlalchemy_persona_repository.py`: any exception
escaping a session scope (including the `PersonaValidationError` raised when
`get_persona` reconstructs a persona from an out-of-range row) is caught and
re-raised as `DatabaseError`. -/
inductive DbErr where
  | databaseError
  | valueError (msg : String)
deriving DecidableEq, Repr

namespace SqlRepo

/-- The relational store state: the `personas` table, one row per `user_id`
holding five non-null `Float` columns, in rowid (insertion) order. -/
abbrev State := List (String × Traits)

/-- `SQLAlchemyPersonaRepository.get_persona`: queries the row for
`user_id`; on a hit it constructs
`Persona(openness=row.openness, ...)` — a fresh `core/persona_model.Persona`
(note: without any user id) whose `__post_init__` validates, so an
out-of-range row makes construction raise and the repository surfaces
`DatabaseError`; on a miss it returns `None`. -/
def get_persona (s : State) (uid : String) :
    Except DbErr (Option CoreModel.Persona) :=
  match dictGet s uid with
  | none => .ok none
  | some row =>
    match CoreModel.mkPersona row.toP with
    | .ok p => .ok (some p)
    | .error _ => .error .databaseError

/-- `SQLAlchemyPersonaRepository.save_persona`: raises `ValueError` on an
empty `user_id`; `_persona_to_dict` projects the five trait attributes and
`_save_or_update_persona` updates the existing row or inserts a new one.
No range validation is performed on save.  A non-numeric trait value cannot
be written to a non-null `Float` column, surfacing as `DatabaseError`.
(The source also requires `isinstance(persona, Persona)`; that class-tag
check is outside this value-level model.) -/
def save_persona (s : State) (uid : String) (ts : PTraits) :
    Except DbErr State :=
  if uid = "" then .error (.valueError "User ID cannot be empty")
  else
    match ts.toQ with
    | some row => .ok (dictInsert s uid row)
    | none => .error .databaseError

/-- The reconstruction loop of `list_personas`: builds a `Persona` from
each row in order, the first failure aborting the session scope with
`DatabaseError`. -/
def listConstruct : List (String × Traits) → Except DbErr (List CoreModel.Persona)
  | [] => .ok []
  | kv :: rest =>
    match CoreModel.mkPersona kv.2.toP with
    | .error _ => .error .databaseError
    | .ok p =>
      match listConstruct rest with
      | .error e => .error e
      | .ok ps => .ok (p :: ps)

/-- `SQLAlchemyPersonaRepository.list_personas`: queries rows with
`limit`/`offset` and reconstructs a `Persona` from each — returning a plain
list of personas, with no user ids.  Any reconstruction failure surfaces as
`DatabaseError`. -/
def list_personas (s : State) (limit offset : ℕ) :
    Except DbErr (List CoreModel.Persona) :=
  listConstruct ((s.drop offset).take limit)

/-- `list_personas` with the source's default arguments `limit=100, offset=0`. -/
def list_personas_default (s : State) : Except DbErr (List CoreModel.Persona) :=
  list_personas s 100 0

end SqlRepo

/-- A common observation type for comparing what the two backends' `list`
operations hand their caller: the in-memory backend yields `(user_id,
persona)` tuples, the relational backend yields bare personas. -/
inductive ObsItem where
  | withUid (uid : String) (traits : PTraits)
  | bare (traits : PTraits)
deriving DecidableEq, Repr

/-- An error escaping a use case `execute`:
`invalidArgument` models `ValueError`, `personaNotFound` models
`PersonaNotFoundError(msg)`, `traitNotFound` / `traitRange` the domain
service errors propagated unchanged, `storeError` a repository failure, and
`runtimeError` the `RuntimeError` wrapper of
`application/update_persona_use_case.py`. -/
inductive UCErr where
  | invalidArgument (msg : String)
  | personaNotFound (msg : String)
  | traitNotFound
  | traitRange (e : PyErr)
  | storeError
  | runtimeError
deriving DecidableEq, Repr

namespace GetPersonaUseCase

/-- `GetPersonaUseCase.execute` of `usecases/get_persona_use_case.py`
(line-identical logic in `application/get_persona_use_case.py`), over the
in-memory repository: rejects an empty `user_id` with `ValueError`, calls
the repository's `get_persona`, raises
`PersonaNotFoundError(f"Persona not found for user_id: {user_id}")` on a
miss, and returns the stored persona on a hit.  It performs no write, so the
store state is returned unchanged. -/
def execute {α : Type} (s : List (String × α)) (uid : String) :
    Except UCErr α × List (String × α) :=
  if uid = "" then
    (.error (.invalidArgument "User ID must be a non-empty string"), s)
  else
    match InMemoryRepo.get_persona s uid with
    | .error _ => (.error .storeError, s)
    | .ok none =>
      (.error (.personaNotFound ("Persona not found for user_id: " ++ uid)), s)
    | .ok (some p) => (.ok p, s)

/-- The same use case over the SQLAlchemy repository (the wiring of
`src/app/__init__.py`). -/
def executeSql (s : SqlRepo.State) (uid : String) :
    Except UCErr CoreModel.Persona × SqlRepo.State :=
  if uid = "" then
    (.error (.invalidArgument "User ID must be a non-empty string"), s)
  else
    match SqlRepo.get_persona s uid with
    | .error _ => (.error .storeError, s)
    | .ok none =>
      (.error (.personaNotFound ("Persona not found for user_id: " ++ uid)), s)
    | .ok (some p) => (.ok p, s)

end GetPersonaUseCase

namespace GetOrCreatePersonaUseCase

/-- `GetOrCreatePersonaUseCase.execute` of
`usecases/get_or_create_persona_use_case.py`, over the in-memory
repository: rejects an empty `user_id`; returns the stored persona when
present; otherwise constructs
`Persona(user_id=uid, openness=3.0, ..., neuroticism=3.0)`, saves it, and
returns the created instance. -/
def executeMem (s : List (String × CoreDomain.Persona)) (uid : String) :
    Except UCErr CoreDomain.Persona × List (String × CoreDomain.Persona) :=
  if uid = "" then
    (.error (.invalidArgument "User ID must be a non-empty string"), s)
  else
    match InMemoryRepo.get_persona s uid with
    | .error _ => (.error .storeError, s)
    | .ok (some p) => (.ok p, s)
    | .ok none =>
      match CoreDomain.mkPersona uid defaultTraits.toP with
      | .error e => (.error (.traitRange e), s)
      | .ok p =>
        match InMemoryRepo.save_persona s uid p with
        | .error _ => (.error .storeError, s)
        | .ok s1 => (.ok p, s1)

/-- The same use case over the SQLAlchemy repository (the wiring of
`src/app/__init__.py`). -/
def executeSql (s : SqlRepo.State) (uid : String) :
    Except UCErr CoreDomain.Persona × SqlRepo.State :=
  if uid = "" then
    (.error (.invalidArgument "User ID must be a non-empty string"), s)
  else
    match SqlRepo.get_persona s uid with
    | .error _ => (.error .storeError, s)
    | .ok (some p) => (.ok ⟨uid, p.traits⟩, s)
    | .ok none =>
      match CoreDomain.mkPersona uid defaultTraits.toP with
      | .error e => (.error (.traitRange e), s)
      | .ok p =>
        match SqlRepo.save_persona s uid p.traits with
        | .error _ => (.error .storeError, s)
        | .ok s1 => (.ok p, s1)

end GetOrCreatePersonaUseCase

namespace UpdatePersonaUseCase

/-- `UpdatePersonaUseCase.execute` of `usecases/update_persona_use_case.py`
over the SQLAlchemy repository (the wiring of `src/app/__init__.py`).
`_validate_inputs` checks, in order: non-empty `user_id`, non-empty
`trait_name`, `isinstance(new_value, (int, float))`.  Then: `get_persona`
(absence raises `ValueError(f"No persona found for user '{user_id}'")`),
the `core/services` domain service's `update_trait` (whose errors propagate
unchanged, with no save — the mutated-but-rejected in-memory object is
discarded, since `get_persona` returned a fresh object), `save_persona`,
and a second `get_persona` whose result — `None` included — is returned as
the authoritative post-state. -/
def execute (s : SqlRepo.State) (uid t : String) (v : PVal) :
    Except UCErr (Option CoreModel.Persona) × SqlRepo.State :=
  if uid = "" then (.error (.invalidArgument "User ID cannot be empty"), s)
  else if t = "" then (.error (.invalidArgument "Trait name cannot be empty"), s)
  else
    match v with
    | .nonNum _ => (.error (.invalidArgument "Trait value must be a number"), s)
    | .num q =>
      match SqlRepo.get_persona s uid with
      | .error _ => (.error .storeError, s)
      | .ok none =>
        (.error (.invalidArgument ("No persona found for user '" ++ uid ++ "'")), s)
      | .ok (some p) =>
        match Services.update_trait_on_model p t (.num q) with
        | (.error .traitNotFound, _) => (.error .traitNotFound, s)
        | (.error (.validationError e), _) => (.error (.traitRange e), s)
        | (.ok p1, _) =>
          match SqlRepo.save_persona s uid p1.traits with
          | .error _ => (.error .storeError, s)
          | .ok s1 =>
            match SqlRepo.get_persona s1 uid with
            | .error _ => (.error .storeError, s1)
            | .ok r => (.ok r, s1)

end UpdatePersonaUseCase

namespace AppUpdatePersonaUseCase

/-- `UpdatePersonaUseCase.execute` of
`application/update_persona_use_case.py` over the in-memory repository (the
wiring of `src/app.py`).  After the same three input checks it gets the
persona and — without a `None` check — hands it to the legacy
`core/persona_domain_service.py` service.  When the persona is absent the
service dereferences `None.id`, and when present it dereferences
`persona.id`; in both cases the resulting exception (or any
`TraitNotFoundError`/`TraitValidationError` the service could raise) is not
a `ValueError`, so `execute` wraps it in `RuntimeError`.  Because the
in-memory store holds the very object the service mutates, the object's
post-call state is visible in the store even on the error path (for this
service that state always carries the pre-call trait values).  On success
the persona is saved and the in-memory mutated object itself is returned. -/
def execute (s : List (String × CoreModel.Persona)) (uid t : String)
    (v : PVal) : Except UCErr CoreModel.Persona × List (String × CoreModel.Persona) :=
  if uid = "" then (.error (.invalidArgument "User ID cannot be empty"), s)
  else if t = "" then (.error (.invalidArgument "Trait name cannot be empty"), s)
  else
    match v with
    | .nonNum _ => (.error (.invalidArgument "Trait value must be a number"), s)
    | .num q =>
      match InMemoryRepo.get_persona s uid with
      | .error _ => (.error .runtimeError, s)
      | .ok none => (.error .runtimeError, s)
      | .ok (some p) =>
        match LegacyService.update_trait p t (.num q) with
        | (.error _, p2) => (.error .runtimeError, dictInsert s uid p2)
        | (.ok p1, _) =>
          match InMemoryRepo.save_persona (dictInsert s uid p1) uid p1 with
          | .error _ => (.error .runtimeError, dictInsert s uid p1)
          | .ok s1 => (.ok p1, s1)

end AppUpdatePersonaUseCase

namespace AppGetOrCreatePersonaUseCase

/-- Modelled from the spec: `src/app.py` imports
`application.get_or_create_persona_use_case.GetOrCreatePersonaUseCase`, but
that module is absent from the source tree.  Per spec §4.4 the use case
fails with `InvalidArgument` on an empty `user_id`, returns the stored
persona when present, and otherwise constructs a default persona (all
traits 3.0), saves it, and returns the saved instance.  The application
layer's entity is the `core/persona_model.py` dataclass. -/
def execute (s : List (String × CoreModel.Persona)) (uid : String) :
    Except UCErr CoreModel.Persona × List (String × CoreModel.Persona) :=
  if uid = "" then
    (.error (.invalidArgument "User ID must be a non-empty string"), s)
  else
    match InMemoryRepo.get_persona s uid with
    | .error _ => (.error .storeError, s)
    | .ok (some p) => (.ok p, s)
    | .ok none =>
      match CoreModel.mkPersona defaultTraits.toP with
      | .error e => (.error (.traitRange e), s)
      | .ok p =>
        match InMemoryRepo.save_persona s uid p with
        | .error _ => (.error .storeError, s)
        | .ok s1 => (.ok p, s1)

end AppGetOrCreatePersonaUseCase

/-- One caller-visible operation of the trait pipeline. -/
inductive Op where
  | getOrCreate (uid : String)
  | get (uid : String)
  | update (uid t : String) (v : PVal)

namespace WiringA

/-- One step of the application as wired in `src/app/__init__.py`
(`usecases/*` use cases, `core/services` domain service, SQLAlchemy
repository): the step yields the trait record of the persona returned to
the caller (when the call succeeds with one) and the new store state. -/
def step (s : SqlRepo.State) : Op → Option PTraits × SqlRepo.State
  | .getOrCreate uid =>
    match GetOrCreatePersonaUseCase.executeSql s uid with
    | (.ok p, s1) => (some p.traits, s1)
    | (.error _, s1) => (none, s1)
  | .get uid =>
    match GetPersonaUseCase.executeSql s uid with
    | (.ok p, s1) => (some p.traits, s1)
    | (.error _, s1) => (none, s1)
  | .update uid t v =>
    match UpdatePersonaUseCase.execute s uid t v with
    | (.ok (some p), s1) => (some p.traits, s1)
    | (.ok none, s1) => (none, s1)
    | (.error _, s1) => (none, s1)

/-- The store state after a sequence of operations. -/
def run (s : SqlRepo.State) : List Op → SqlRepo.State
  | [] => s
  | op :: ops => run (step s op).2 ops

/-- The trait records of every persona returned to callers along a
sequence of operations. -/
def outputs (s : SqlRepo.State) : List Op → List PTraits
  | [] => []
  | op :: ops =>
    (match (step s op).1 with
     | some ts => [ts]
     | none => []) ++ outputs (step s op).2 ops

end WiringA

namespace WiringB

/-- One step of the application as wired in `src/app.py` (`application/*`
use cases, legacy `core/persona_domain_service.py` service, in-memory
repository; its get-or-create module is modelled from the spec, see
`AppGetOrCreatePersonaUseCase.execute`). -/
def step (s : List (String × CoreModel.Persona)) :
    Op → Option PTraits × List (String × CoreModel.Persona)
  | .getOrCreate uid =>
    match AppGetOrCreatePersonaUseCase.execute s uid with
    | (.ok p, s1) => (some p.traits, s1)
    | (.error _, s1) => (none, s1)
  | .get uid =>
    match GetPersonaUseCase.execute s uid with
    | (.ok p, s1) => (some p.traits, s1)
    | (.error _, s1) => (none, s1)
  | .update uid t v =>
    match AppUpdatePersonaUseCase.execute s uid t v with
    | (.ok p, s1) => (some p.traits, s1)
    | (.error _, s1) => (none, s1)

/-- The store state after a sequence of operations. -/
def run (s : List (String × CoreModel.Persona)) :
    List Op → List (String × CoreModel.Persona)
  | [] => s
  | op :: ops => run (step s op).2 ops

/-- The trait records of every persona returned to callers along a
sequence of operations. -/
def outputs (s : List (String × CoreModel.Persona)) : List Op → List PTraits
  | [] => []
  | op :: ops =>
    (match (step s op).1 with
     | some ts => [ts]
     | none => []) ++ outputs (step s op).2 ops

end WiringB

/-- A single-caller repository call, for comparing the two backends
(claim about `get`/`save`/`list` contract equivalence). -/
inductive Call where
  | saveC (uid : String) (p : CoreModel.Persona)
  | getC (uid : String)
  | listC (limit offset : ℕ)

/-- What a single repository call observably produces for its caller,
projected to trait records (the projection under which the two backends
can agree at all; the in-memory backend's `list` additionally carries the
user ids, see `ObsItem`). -/
inductive CallObs where
  | savedOk
  | gotNone
  | got (ts : PTraits)
  | listed (tss : List PTraits)
  | failed
deriving DecidableEq, Repr

/-- One call against the in-memory backend: the observation it produces
for the caller (projected to trait records) and the new store state. -/
def memCall (s : List (String × CoreModel.Persona)) :
    Call → CallObs × List (String × CoreModel.Persona)
  | .saveC uid p =>
    match InMemoryRepo.save_persona s uid p with
    | .ok s1 => (.savedOk, s1)
    | .error _ => (.failed, s)
  | .getC uid =>
    match InMemoryRepo.get_persona s uid with
    | .ok (some p) => (.got p.traits, s)
    | .ok none => (.gotNone, s)
    | .error _ => (.failed, s)
  | .listC l o =>
    (.listed ((InMemoryRepo.list_personas s l o).map fun kv => kv.2.traits), s)

/-- Run a call sequence against the in-memory backend, collecting
observations. -/
def memRun (s : List (String × CoreModel.Persona)) :
    List Call → List CallObs × List (String × CoreModel.Persona)
  | [] => ([], s)
  | c :: cs =>
    ((memCall s c).1 :: (memRun (memCall s c).2 cs).1,
     (memRun (memCall s c).2 cs).2)

/-- One call against the SQLAlchemy backend. -/
def sqlCall (s : SqlRepo.State) : Call → CallObs × SqlRepo.State
  | .saveC uid p =>
    match SqlRepo.save_persona s uid p.traits with
    | .ok s1 => (.savedOk, s1)
    | .error _ => (.failed, s)
  | .getC uid =>
    match SqlRepo.get_persona s uid with
    | .ok (some p) => (.got p.traits, s)
    | .ok none => (.gotNone, s)
    | .error _ => (.failed, s)
  | .listC l o =>
    match SqlRepo.list_personas s l o with
    | .ok ps => (.listed (ps.map fun p => p.traits), s)
    | .error _ => (.failed, s)

/-- Run a call sequence against the SQLAlchemy backend, collecting
observations. -/
def sqlRun (s : SqlRepo.State) : List Call → List CallObs × SqlRepo.State
  | [] => ([], s)
  | c :: cs =>
    ((sqlCall s c).1 :: (sqlRun (sqlCall s c).2 cs).1,
     (sqlRun (sqlCall s c).2 cs).2)

/-- Well-formedness of a single-caller call: non-empty user ids, and saved
personas satisfy the trait invariant.  (The counterexamples below show the
backends observably diverge when either condition is dropped.) -/
def callOK : Call → Prop
  | .saveC uid p => uid ≠ "" ∧ p.traits.inRange = true
  | .getC uid => uid ≠ ""
  | .listC _ _ => True

/-- The in-memory backend's `list` observation in its native shape:
`(user_id, persona)` pairs. -/
def memObsList (s : List (String × CoreModel.Persona)) : List ObsItem :=
  (InMemoryRepo.list_personas_default s).map fun kv => ObsItem.withUid kv.1 kv.2.traits

/-- The SQLAlchemy backend's `list` observation in its native shape:
bare personas, no user ids. -/
def sqlObsList (s : SqlRepo.State) : Option (List ObsItem) :=
  match SqlRepo.list_personas_default s with
  | .ok ps => some (ps.map fun p => ObsItem.bare p.traits)
  | .error _ => none

/-- Every trait field of the persona is numeric. -/
def PTraits.allNum (p : PTraits) : Bool :=
  orderedTraits.all fun t => (p.get t).isNum

/-- Whether an entity-validation outcome is a `TraitRangeViolation`-style
failure, i.e. a `PersonaValidationError` carrying a combined message
(as opposed to the bare `TypeError` the `core/domain` model raises on a
non-numeric value). -/
def PyErr.isRangeViolation : PyErr → Bool
  | .personaValidation _ => true
  | .typeError => false

/-- A freshly constructed legacy persona with default traits
(a concrete test fixture). -/
def samplePersona : CoreModel.Persona :=
  { traits := defaultTraits.toP, attrs := CoreModel.freshAttrs }

/-- A legacy persona object holding an out-of-range `openness` value — the
state a persona object is left in after the `core/services` domain
service's failed mutation (which performs no rollback); such an object can
then be handed to a repository `save`. -/
def invalidPersona : CoreModel.Persona :=
  { traits := { defaultTraits.toP with openness := .num 9 },
    attrs := CoreModel.freshAttrs }

/-- The database row holding the trait values of `invalidPersona`. -/
def invalidRow : Traits := { defaultTraits with openness := 9 }

/-- Every persona stored in an in-memory-style store satisfies the trait
invariant. -/
def memStoreValid (s : List (String × CoreModel.Persona)) : Prop :=
  ∀ kv ∈ s, kv.2.traits.inRange = true

/-- Every row of the relational store lies in range. -/
def sqlStoreValid (s : SqlRepo.State) : Prop :=
  ∀ kv ∈ s, kv.2.inRange = true

/-!
## Helper lemmas
-/

theorem parseTrait_eq_none_iff (s : String) :
    parseTrait s = none ↔ s ∉ TRAIT_NAMES := by
  unfold parseTrait TRAIT_NAMES
  split_ifs with h1 h2 h3 h4 h5 <;> simp_all

theorem PVal.okRange_iff (v : PVal) :
    v.okRange = true ↔
      ∃ q, v = .num q ∧ MIN_TRAIT_VALUE ≤ q ∧ q ≤ MAX_TRAIT_VALUE := by
  cases v <;> simp [PVal.okRange]

theorem PTraits.inRange_iff (p : PTraits) :
    p.inRange = true ↔
      ∀ t, ∃ q, p.get t = .num q ∧
        MIN_TRAIT_VALUE ≤ q ∧ q ≤ MAX_TRAIT_VALUE := by
  unfold PTraits.inRange orderedTraits
  simp only [List.all_cons, List.all_nil, Bool.and_true, Bool.and_eq_true,
    PVal.okRange_iff]
  constructor
  · rintro ⟨h1, h2, h3, h4, h5⟩ t
    cases t <;> assumption
  · intro h
    exact ⟨h .openness, h .conscientiousness, h .extraversion,
      h .agreeableness, h .neuroticism⟩

theorem PTraits.get_set_self (p : PTraits) (t : TraitName) (v : PVal) :
    (p.set t v).get t = v := by
  cases t <;> rfl

theorem PTraits.get_set_ne (p : PTraits) {t t' : TraitName} (v : PVal)
    (h : t ≠ t') : (p.set t v).get t' = p.get t' := by
  cases t <;> cases t' <;> first | rfl | exact absurd rfl h

theorem PTraits.set_get (p : PTraits) (t : TraitName) :
    p.set t (p.get t) = p := by
  cases t <;> rfl

theorem PTraits.set_set (p : PTraits) (t : TraitName) (v w : PVal) :
    (p.set t v).set t w = p.set t w := by
  cases t <;> rfl

theorem PTraits.set_rollback (p : PTraits) (t : TraitName) (v : PVal) :
    (p.set t v).set t (p.get t) = p := by
  rw [PTraits.set_set, PTraits.set_get]

theorem Traits.toP_get (p : Traits) (t : TraitName) :
    p.toP.get t = .num (p.get t) := by
  cases t <;> rfl

theorem Traits.toQ_toP (p : Traits) : p.toP.toQ = some p := rfl

theorem Traits.toP_inRange (p : Traits) : p.toP.inRange = p.inRange := by
  unfold PTraits.inRange Traits.inRange
  simp [Traits.toP_get, PVal.okRange]

theorem PTraits.toQ_eq_some {p : PTraits} {row : Traits}
    (h : p.toQ = some row) : row.toP = p := by
  obtain ⟨o, c, e, a, n⟩ := p
  cases o <;> cases c <;> cases e <;> cases a <;> cases n <;>
    simp_all [PTraits.toQ, Traits.toP]
  subst h; simp

theorem PTraits.toQ_of_inRange {p : PTraits} (h : p.inRange = true) :
    ∃ row, p.toQ = some row ∧ row.toP = p ∧ row.inRange = true := by
  obtain ⟨o, c, e, a, n⟩ := p
  rw [PTraits.inRange_iff] at h
  obtain ⟨qo, ho, _, _⟩ := h .openness
  obtain ⟨qc, hc, _, _⟩ := h .conscientiousness
  obtain ⟨qe, he, _, _⟩ := h .extraversion
  obtain ⟨qa, ha, _, _⟩ := h .agreeableness
  obtain ⟨qn, hn, _, _⟩ := h .neuroticism
  simp only [PTraits.get] at ho hc he ha hn
  subst ho hc he ha hn
  refine ⟨_, rfl, rfl, ?_⟩
  rw [Traits.inRange, List.all_eq_true]
  intro t ht
  cases t <;> simp_all [Traits.get, MIN_TRAIT_VALUE, MAX_TRAIT_VALUE]

theorem CoreModel.validateLoop_eq_nil_iff (p : PTraits) (l : List TraitName) :
    CoreModel.validateLoop p l = [] ↔ ∀ t ∈ l, (p.get t).okRange = true := by
  induction l with
  | nil => simp [CoreModel.validateLoop]
  | cons t rest ih =>
    simp only [CoreModel.validateLoop, List.append_eq_nil, ih,
      List.mem_cons]
    cases h : p.get t with
    | nonNum ty =>
      constructor
      · rintro ⟨hfalse, -⟩; cases hfalse
      · intro hall
        have := hall t (Or.inl rfl)
        rw [h] at this
        cases this
    | num q =>
      dsimp only
      by_cases hq : q < MIN_TRAIT_VALUE ∨ MAX_TRAIT_VALUE < q
      · rw [if_pos hq]
        constructor
        · rintro ⟨hfalse, -⟩; cases hfalse
        · intro hall
          have := hall t (Or.inl rfl)
          rw [h] at this
          simp only [PVal.okRange, Bool.and_eq_true, decide_eq_true_eq] at this
          rcases hq with hq | hq
          · exact absurd this.1 (not_le.mpr hq)
          · exact absurd this.2 (not_le.mpr hq)
      · rw [if_neg hq]
        push_neg at hq
        constructor
        · rintro ⟨-, hrest⟩ t' ht'
          rcases ht' with rfl | ht'
          · rw [h]
            simp only [PVal.okRange, Bool.and_eq_true, decide_eq_true_eq]
            exact ⟨hq.1, hq.2⟩
          · exact hrest t' ht'
        · intro hall
          exact ⟨rfl, fun t' ht' => hall t' (Or.inr ht')⟩

theorem CoreModel.validate_ranges_ok_iff (p : PTraits) :
    CoreModel.validate_ranges p = .ok () ↔ p.inRange = true := by
  unfold CoreModel.validate_ranges
  rw [PTraits.inRange, List.all_eq_true]
  cases hl : CoreModel.validateLoop p orderedTraits with
  | nil =>
    rw [CoreModel.validateLoop_eq_nil_iff] at hl
    simpa using hl
  | cons e es =>
    simp only [reduceCtorEq, false_iff]
    intro hall
    have hnil : CoreModel.validateLoop p orderedTraits = [] := by
      rw [CoreModel.validateLoop_eq_nil_iff]
      intro t ht
      exact hall t ht
    rw [hl] at hnil
    cases hnil

theorem CoreDomain.validateLoop_ok {p : PTraits} {l : List TraitName}
    {acc res : List VEntry} (h : CoreDomain.validateLoop p l acc = .ok res) :
    (∀ t ∈ l, (p.get t).isNum = true) ∧
      res = acc ++ CoreModel.validateLoop p l := by
  induction l generalizing acc with
  | nil =>
    simp only [CoreDomain.validateLoop] at h
    cases h
    simp [CoreModel.validateLoop]
  | cons t rest ih =>
    simp only [CoreDomain.validateLoop] at h
    cases hg : p.get t with
    | nonNum ty => rw [hg] at h; cases h
    | num q =>
      rw [hg] at h
      dsimp only at h
      by_cases hq : q < MIN_TRAIT_VALUE ∨ MAX_TRAIT_VALUE < q
      · rw [if_pos hq] at h
        obtain ⟨hnum, hres⟩ := ih h
        refine ⟨?_, ?_⟩
        · intro t' ht'
          rcases List.mem_cons.mp ht' with rfl | ht'
          · rw [hg]; rfl
          · exact hnum t' ht'
        · rw [hres]
          simp [CoreModel.validateLoop, hg, if_pos hq]
      · rw [if_neg hq] at h
        obtain ⟨hnum, hres⟩ := ih h
        refine ⟨?_, ?_⟩
        · intro t' ht'
          rcases List.mem_cons.mp ht' with rfl | ht'
          · rw [hg]; rfl
          · exact hnum t' ht'
        · rw [hres]
          simp [CoreModel.validateLoop, hg, if_neg hq]

theorem CoreDomain.validateLoop_of_allNum {p : PTraits} {l : List TraitName}
    (h : ∀ t ∈ l, (p.get t).isNum = true) (acc : List VEntry) :
    CoreDomain.validateLoop p l acc =
      .ok (acc ++ CoreModel.validateLoop p l) := by
  induction l generalizing acc with
  | nil => simp [CoreDomain.validateLoop, CoreModel.validateLoop]
  | cons t rest ih =>
    have hnum := h t (List.mem_cons_self t rest)
    cases hg : p.get t with
    | nonNum ty => rw [hg] at hnum; cases hnum
    | num q =>
      have hrest : ∀ t' ∈ rest, (p.get t').isNum = true :=
        fun t' ht' => h t' (List.mem_cons_of_mem t ht')
      simp only [CoreDomain.validateLoop, CoreModel.validateLoop, hg]
      by_cases hq : q < MIN_TRAIT_VALUE ∨ MAX_TRAIT_VALUE < q
      · rw [if_pos hq, if_pos hq, ih hrest]
        simp
      · rw [if_neg hq, if_neg hq, ih hrest]
        simp

theorem CoreDomain.validate_ranges_of_allNum {p : PTraits}
    (h : p.allNum = true) :
    CoreDomain.validate_ranges p = CoreModel.validate_ranges p := by
  rw [PTraits.allNum, List.all_eq_true] at h
  unfold CoreDomain.validate_ranges CoreModel.validate_ranges
  rw [CoreDomain.validateLoop_of_allNum h]
  simp only [List.nil_append]
  cases CoreModel.validateLoop p orderedTraits <;> rfl

theorem CoreDomain.validate_ok_iff_inRange (p : PTraits) :
    CoreDomain.validate_ranges p = .ok () ↔ p.inRange = true := by
  constructor
  · intro h
    unfold CoreDomain.validate_ranges at h
    cases hl : CoreDomain.validateLoop p orderedTraits [] with
    | error e => rw [hl] at h; cases h
    | ok acc =>
      obtain ⟨hnum, hres⟩ := CoreDomain.validateLoop_ok hl
      rw [hl] at h
      cases acc with
      | nil =>
        rw [PTraits.inRange, List.all_eq_true]
        intro t ht
        have hmod : CoreModel.validateLoop p orderedTraits = [] := by
          simpa using hres.symm
        rw [CoreModel.validateLoop_eq_nil_iff] at hmod
        exact hmod t ht
      | cons e es => cases h
  · intro h
    have hn : p.allNum = true := by
      rw [PTraits.allNum, List.all_eq_true]
      intro t ht
      rw [PTraits.inRange_iff] at h
      obtain ⟨q, hq, -, -⟩ := h t
      rw [hq]; rfl
    rw [CoreDomain.validate_ranges_of_allNum hn,
      CoreModel.validate_ranges_ok_iff]
    exact h

theorem CoreModel.mem_validateLoop_range_iff (p : PTraits)
    (l : List TraitName) (t : TraitName) (q lo hi : ℚ) :
    VEntry.range t q lo hi ∈ CoreModel.validateLoop p l ↔
      t ∈ l ∧ p.get t = .num q ∧ lo = MIN_TRAIT_VALUE ∧ hi = MAX_TRAIT_VALUE ∧
        (q < MIN_TRAIT_VALUE ∨ MAX_TRAIT_VALUE < q) := by
  induction l with
  | nil => simp [CoreModel.validateLoop]
  | cons t' rest ih =>
    simp only [CoreModel.validateLoop, List.mem_append, ih, List.mem_cons]
    cases hg : p.get t' with
    | nonNum ty =>
      simp only [List.mem_singleton, reduceCtorEq, false_or]
      constructor
      · rintro ⟨ht, hq, hlo, hhi, hrange⟩
        exact ⟨Or.inr ht, hq, hlo, hhi, hrange⟩
      · rintro ⟨ht | ht, hq, hlo, hhi, hrange⟩
        · subst ht; rw [hg] at hq; cases hq
        · exact ⟨ht, hq, hlo, hhi, hrange⟩
    | num q' =>
      dsimp only
      by_cases hq' : q' < MIN_TRAIT_VALUE ∨ MAX_TRAIT_VALUE < q'
      · rw [if_pos hq']
        simp only [List.mem_singleton, VEntry.range.injEq]
        constructor
        · rintro (⟨rfl, rfl, rfl, rfl⟩ | ⟨ht, hq, hlo, hhi, hrange⟩)
          · exact ⟨Or.inl rfl, hg, rfl, rfl, hq'⟩
          · exact ⟨Or.inr ht, hq, hlo, hhi, hrange⟩
        · rintro ⟨ht | ht, hq, hlo, hhi, hrange⟩
          · subst ht
            rw [hg] at hq
            cases hq
            subst hlo
            subst hhi
            exact Or.inl ⟨rfl, rfl, rfl, rfl⟩
          · exact Or.inr ⟨ht, hq, hlo, hhi, hrange⟩
      · rw [if_neg hq']
        simp only [List.not_mem_nil, false_or]
        constructor
        · rintro ⟨ht, hq, hlo, hhi, hrange⟩
          exact ⟨Or.inr ht, hq, hlo, hhi, hrange⟩
        · rintro ⟨ht | ht, hq, hlo, hhi, hrange⟩
          · subst ht
            rw [hg] at hq
            cases hq
            exact absurd hrange hq'
          · exact ⟨ht, hq, hlo, hhi, hrange⟩

theorem CoreModel.mem_validateLoop_notNumber_iff (p : PTraits)
    (l : List TraitName) (t : TraitName) (ty : String) :
    VEntry.notNumber t ty ∈ CoreModel.validateLoop p l ↔
      t ∈ l ∧ p.get t = .nonNum ty := by
  induction l with
  | nil => simp [CoreModel.validateLoop]
  | cons t' rest ih =>
    simp only [CoreModel.validateLoop, List.mem_append, ih, List.mem_cons]
    cases hg : p.get t' with
    | nonNum ty' =>
      simp only [List.mem_singleton, VEntry.notNumber.injEq]
      constructor
      · rintro (⟨rfl, rfl⟩ | ⟨ht, hq⟩)
        · exact ⟨Or.inl rfl, hg⟩
        · exact ⟨Or.inr ht, hq⟩
      · rintro ⟨ht | ht, hq⟩
        · subst ht; rw [hg] at hq; cases hq; exact Or.inl ⟨rfl, rfl⟩
        · exact Or.inr ⟨ht, hq⟩
    | num q' =>
      dsimp only
      by_cases hq' : q' < MIN_TRAIT_VALUE ∨ MAX_TRAIT_VALUE < q'
      · rw [if_pos hq']
        simp only [List.mem_singleton, reduceCtorEq, false_or]
        constructor
        · rintro ⟨ht, hq⟩
          exact ⟨Or.inr ht, hq⟩
        · rintro ⟨ht | ht, hq⟩
          · subst ht; rw [hg] at hq; cases hq
          · exact ⟨ht, hq⟩
      · rw [if_neg hq']
        simp only [List.not_mem_nil, false_or]
        constructor
        · rintro ⟨ht, hq⟩
          exact ⟨Or.inr ht, hq⟩
        · rintro ⟨ht | ht, hq⟩
          · subst ht; rw [hg] at hq; cases hq
          · exact ⟨ht, hq⟩

theorem find?_map_update {α : Type} (s : List (String × α)) (k : String)
    (v : α) (h : s.any (·.1 = k) = true) :
    (s.map fun kv => if kv.1 = k then (k, v) else kv).find? (·.1 = k) =
      some (k, v) := by
  induction s with
  | nil => cases h
  | cons kv rest ih =>
    simp only [List.any_cons, Bool.or_eq_true, decide_eq_true_eq] at h
    simp only [List.map_cons]
    by_cases hk : kv.1 = k
    · rw [if_pos hk]
      exact List.find?_cons_of_pos _ (by simp)
    · rw [if_neg hk]
      rw [List.find?_cons_of_neg _ (by simp [hk])]
      refine ih ?_
      rcases h with h | h
      · exact absurd h hk
      · exact h

theorem find?_map_update_ne {α : Type} (s : List (String × α)) (k k' : String)
    (v : α) (hne : k' ≠ k) :
    (s.map fun kv => if kv.1 = k then (k, v) else kv).find? (·.1 = k') =
      s.find? (·.1 = k') := by
  induction s with
  | nil => rfl
  | cons kv rest ih =>
    simp only [List.map_cons]
    by_cases hk : kv.1 = k
    · rw [if_pos hk]
      rw [List.find?_cons_of_neg _ (by simp [Ne.symm hne])]
      rw [List.find?_cons_of_neg _ (by simp [hk, Ne.symm hne])]
      exact ih
    · rw [if_neg hk]
      by_cases hk' : kv.1 = k'
      · rw [List.find?_cons_of_pos _ (by simp [hk']),
          List.find?_cons_of_pos _ (by simp [hk'])]
      · rw [List.find?_cons_of_neg _ (by simp [hk']),
          List.find?_cons_of_neg _ (by simp [hk'])]
        exact ih

theorem find?_eq_none_of_not_any {α : Type} (s : List (String × α))
    (k : String) (h : ¬ s.any (·.1 = k) = true) :
    s.find? (·.1 = k) = none := by
  rw [List.find?_eq_none]
  intro kv hkv
  simp only [decide_eq_true_eq]
  intro hk
  exact h (List.any_eq_true.mpr ⟨kv, hkv, by simp [hk]⟩)

theorem dictGet_insert_self {α : Type} (s : List (String × α)) (k : String)
    (v : α) : dictGet (dictInsert s k v) k = some v := by
  unfold dictInsert dictGet
  by_cases h : s.any (·.1 = k) = true
  · rw [if_pos h, find?_map_update s k v h]
    rfl
  · rw [if_neg h, List.find?_append, find?_eq_none_of_not_any s k h]
    simp [List.find?_cons_of_pos]

theorem dictGet_insert_ne {α : Type} (s : List (String × α)) (k k' : String)
    (v : α) (hne : k' ≠ k) :
    dictGet (dictInsert s k v) k' = dictGet s k' := by
  unfold dictInsert dictGet
  by_cases h : s.any (·.1 = k) = true
  · rw [if_pos h, find?_map_update_ne s k k' v hne]
  · rw [if_neg h, List.find?_append]
    cases hf : s.find? (·.1 = k') with
    | some kv => rfl
    | none =>
      rw [List.find?_cons_of_neg _ (by simp [Ne.symm hne])]
      rfl

theorem mem_dictInsert {α : Type} {s : List (String × α)} {k : String}
    {v : α} {kv : String × α} (h : kv ∈ dictInsert s k v) :
    kv = (k, v) ∨ kv ∈ s := by
  unfold dictInsert at h
  by_cases ha : s.any (·.1 = k) = true
  · rw [if_pos ha] at h
    obtain ⟨x, hx, hfx⟩ := List.mem_map.mp h
    by_cases hxk : x.1 = k
    · rw [if_pos hxk] at hfx
      exact Or.inl hfx.symm
    · rw [if_neg hxk] at hfx
      exact Or.inr (hfx ▸ hx)
  · rw [if_neg ha] at h
    rcases List.mem_append.mp h with h | h
    · exact Or.inr h
    · exact Or.inl (List.mem_singleton.mp h)

theorem dictGet_mem {α : Type} {s : List (String × α)} {k : String} {v : α}
    (h : dictGet s k = some v) : (k, v) ∈ s := by
  unfold dictGet at h
  cases hf : s.find? (·.1 = k) with
  | none => rw [hf] at h; cases h
  | some kv =>
    rw [hf] at h
    have hk : kv.1 = k := by simpa using List.find?_some hf
    have hv : kv.2 = v := by simpa using h
    have : kv = (k, v) := by
      obtain ⟨a, b⟩ := kv
      simp only at hk hv
      rw [hk, hv]
    exact this ▸ List.mem_of_find?_eq_some hf

theorem map_update_comm {α β : Type} (f : α → β) (s : List (String × α))
    (k : String) (v : α) :
    (s.map fun kv => if kv.1 = k then (k, v) else kv).map
        (fun kv => (kv.1, f kv.2)) =
      (s.map fun kv => (kv.1, f kv.2)).map
        (fun kv => if kv.1 = k then (k, f v) else kv) := by
  induction s with
  | nil => rfl
  | cons kv rest ih =>
    simp only [List.map_cons, List.cons.injEq]
    refine ⟨?_, ih⟩
    by_cases hk : kv.1 = k
    · rw [if_pos hk]
      simp [hk]
    · rw [if_neg hk]
      simp [hk]

theorem map_dictInsert {α β : Type} (f : α → β) (s : List (String × α))
    (k : String) (v : α) :
    (dictInsert s k v).map (fun kv => (kv.1, f kv.2)) =
      dictInsert (s.map fun kv => (kv.1, f kv.2)) k (f v) := by
  unfold dictInsert
  have hany : (s.map fun kv => (kv.1, f kv.2)).any (·.1 = k) =
      s.any (·.1 = k) := by
    induction s with
    | nil => rfl
    | cons kv rest ih => simp [List.any_cons, ih]
  by_cases h : s.any (·.1 = k) = true
  · rw [if_pos h, if_pos (hany ▸ h)]
    exact map_update_comm f s k v
  · rw [if_neg h, if_neg (by rw [hany]; exact h)]
    simp

theorem dictGet_map {α β : Type} (f : α → β) (s : List (String × α))
    (k : String) :
    dictGet (s.map fun kv => (kv.1, f kv.2)) k = (dictGet s k).map f := by
  unfold dictGet
  induction s with
  | nil => rfl
  | cons kv rest ih =>
    simp only [List.map_cons]
    by_cases hk : kv.1 = k
    · rw [List.find?_cons_of_pos _ (by simp [hk]),
        List.find?_cons_of_pos _ (by simp [hk])]
      rfl
    · rw [List.find?_cons_of_neg _ (by simp [hk]),
        List.find?_cons_of_neg _ (by simp [hk])]
      exact ih

theorem CoreModel.mkPersona_of_inRange {ts : PTraits} (h : ts.inRange = true) :
    CoreModel.mkPersona ts = .ok ⟨ts, CoreModel.freshAttrs⟩ := by
  unfold CoreModel.mkPersona
  rw [(CoreModel.validate_ranges_ok_iff ts).mpr h]

theorem SqlRepo.get_persona_of_valid {s : SqlRepo.State}
    (h : sqlStoreValid s) (uid : String) :
    SqlRepo.get_persona s uid =
      .ok ((dictGet s uid).map fun row =>
        (⟨row.toP, CoreModel.freshAttrs⟩ : CoreModel.Persona)) := by
  unfold SqlRepo.get_persona
  cases hg : dictGet s uid with
  | none => rfl
  | some row =>
    have hrow : row.inRange = true := h (uid, row) (dictGet_mem hg)
    dsimp only
    rw [CoreModel.mkPersona_of_inRange (by rw [Traits.toP_inRange]; exact hrow)]
    rfl

theorem SqlRepo.save_persona_of_inRange {ts : PTraits} (h : ts.inRange = true)
    (s : SqlRepo.State) {uid : String} (huid : uid ≠ "") :
    ∃ row, ts.toQ = some row ∧ row.toP = ts ∧ row.inRange = true ∧
      SqlRepo.save_persona s uid ts = .ok (dictInsert s uid row) := by
  obtain ⟨row, h1, h2, h3⟩ := PTraits.toQ_of_inRange h
  refine ⟨row, h1, h2, h3, ?_⟩
  unfold SqlRepo.save_persona
  rw [if_neg huid, h1]

theorem SqlRepo.listConstruct_of_valid {rows : List (String × Traits)}
    (h : ∀ kv ∈ rows, kv.2.inRange = true) :
    SqlRepo.listConstruct rows =
      .ok (rows.map fun kv =>
        (⟨kv.2.toP, CoreModel.freshAttrs⟩ : CoreModel.Persona)) := by
  induction rows with
  | nil => rfl
  | cons kv rest ih =>
    have hkv := h kv (List.mem_cons_self kv rest)
    unfold SqlRepo.listConstruct
    rw [CoreModel.mkPersona_of_inRange (by rw [Traits.toP_inRange]; exact hkv)]
    rw [ih fun kv' hkv' => h kv' (List.mem_cons_of_mem kv hkv')]
    rfl

theorem SqlRepo.list_personas_of_valid {s : SqlRepo.State}
    (h : sqlStoreValid s) (limit offset : ℕ) :
    SqlRepo.list_personas s limit offset =
      .ok (((s.drop offset).take limit).map fun kv =>
        (⟨kv.2.toP, CoreModel.freshAttrs⟩ : CoreModel.Persona)) := by
  unfold SqlRepo.list_personas
  exact SqlRepo.listConstruct_of_valid fun kv hkv =>
    h kv (List.drop_subset _ _ (List.take_subset _ _ hkv))

theorem memStoreValid_insert {s : List (String × CoreModel.Persona)}
    {p : CoreModel.Persona} (h : memStoreValid s)
    (hp : p.traits.inRange = true) (uid : String) :
    memStoreValid (dictInsert s uid p) := by
  intro kv hkv
  rcases mem_dictInsert hkv with rfl | hkv
  · exact hp
  · exact h kv hkv

theorem sqlStoreValid_insert {s : SqlRepo.State} {row : Traits}
    (h : sqlStoreValid s) (hrow : row.inRange = true) (uid : String) :
    sqlStoreValid (dictInsert s uid row) := by
  intro kv hkv
  rcases mem_dictInsert hkv with rfl | hkv
  · exact hrow
  · exact h kv hkv

theorem mem_orderedTraits (t : TraitName) : t ∈ orderedTraits := by
  cases t <;> simp [orderedTraits]

theorem PTraits.inRange_set {p : PTraits} (hp : p.inRange = true)
    (tn : TraitName) {v : ℚ} (h1 : MIN_TRAIT_VALUE ≤ v)
    (h2 : v ≤ MAX_TRAIT_VALUE) : (p.set tn (.num v)).inRange = true := by
  rw [PTraits.inRange_iff] at hp ⊢
  intro t'
  by_cases ht' : tn = t'
  · subst ht'
    rw [PTraits.get_set_self]
    exact ⟨v, rfl, h1, h2⟩
  · rw [PTraits.get_set_ne _ _ ht']
    exact hp t'

theorem PTraits.allNum_of_inRange {p : PTraits} (hp : p.inRange = true) :
    p.allNum = true := by
  rw [PTraits.inRange_iff] at hp
  rw [PTraits.allNum, List.all_eq_true]
  intro t ht
  obtain ⟨q, hq, -, -⟩ := hp t
  rw [hq]
  rfl

theorem PTraits.allNum_set {p : PTraits} (hp : p.allNum = true)
    (tn : TraitName) (v : ℚ) : (p.set tn (.num v)).allNum = true := by
  rw [PTraits.allNum, List.all_eq_true] at hp ⊢
  intro t ht
  by_cases htn : tn = t
  · subst htn
    rw [PTraits.get_set_self]
    rfl
  · rw [PTraits.get_set_ne _ _ htn]
    exact hp t ht

theorem Traits.get_set_self_q (p : Traits) (t : TraitName) (v : ℚ) :
    (p.set t v).get t = v := by
  cases t <;> rfl

theorem Traits.get_set_ne_q (p : Traits) {t t' : TraitName} (v : ℚ)
    (h : t ≠ t') : (p.set t v).get t' = p.get t' := by
  cases t <;> cases t' <;> first | rfl | exact absurd rfl h

theorem Traits.toP_set (p : Traits) (t : TraitName) (v : ℚ) :
    (p.set t v).toP = p.toP.set t (.num v) := by
  cases t <;> rfl

theorem Traits.inRange_set_q {p : Traits} (hp : p.inRange = true)
    (tn : TraitName) {v : ℚ} (h1 : MIN_TRAIT_VALUE ≤ v)
    (h2 : v ≤ MAX_TRAIT_VALUE) : (p.set tn v).inRange = true := by
  rw [← Traits.toP_inRange] at hp ⊢
  rw [Traits.toP_set]
  exact PTraits.inRange_set hp tn h1 h2

theorem CoreDomain.mkPersona_ok_of_inRange {ts : PTraits} (uid : String)
    (h : ts.inRange = true) :
    CoreDomain.mkPersona uid ts = .ok ⟨uid, ts⟩ := by
  unfold CoreDomain.mkPersona
  rw [(CoreDomain.validate_ok_iff_inRange ts).mpr h]

theorem CoreModel.validate_ranges_of_not_inRange {p : PTraits}
    (h : p.inRange = false) :
    CoreModel.validate_ranges p =
      .error (.personaValidation (CoreModel.validateLoop p orderedTraits)) ∧
      CoreModel.validateLoop p orderedTraits ≠ [] := by
  have hne : CoreModel.validateLoop p orderedTraits ≠ [] := by
    intro hnil
    rw [CoreModel.validateLoop_eq_nil_iff] at hnil
    have : p.inRange = true := by
      rw [PTraits.inRange, List.all_eq_true]
      exact hnil
    rw [h] at this
    cases this
  refine ⟨?_, hne⟩
  unfold CoreModel.validate_ranges
  cases hl : CoreModel.validateLoop p orderedTraits with
  | nil => exact absurd hl hne
  | cons e es => rfl

theorem CoreDomain.validateLoop_typeError {p : PTraits}
    {l : List TraitName} (h : ∃ t ∈ l, (p.get t).isNum = false)
    (acc : List VEntry) :
    CoreDomain.validateLoop p l acc = .error .typeError := by
  induction l generalizing acc with
  | nil => obtain ⟨t, ht, -⟩ := h; cases ht
  | cons t rest ih =>
    obtain ⟨t', ht', hnum⟩ := h
    cases hg : p.get t with
    | nonNum ty => simp [CoreDomain.validateLoop, hg]
    | num q =>
      have hrest : ∃ u ∈ rest, (p.get u).isNum = false := by
        rcases List.mem_cons.mp ht' with rfl | ht'
        · rw [hg] at hnum; cases hnum
        · exact ⟨t', ht', hnum⟩
      simp only [CoreDomain.validateLoop, hg]
      by_cases hq : q < MIN_TRAIT_VALUE ∨ MAX_TRAIT_VALUE < q
      · rw [if_pos hq]
        exact ih hrest _
      · rw [if_neg hq]
        exact ih hrest _

theorem CoreDomain.validate_ranges_typeError {p : PTraits}
    (h : p.allNum = false) :
    CoreDomain.validate_ranges p = .error .typeError := by
  have hex : ∃ t ∈ orderedTraits, (p.get t).isNum = false := by
    by_contra hc
    push_neg at hc
    have : p.allNum = true := by
      rw [PTraits.allNum, List.all_eq_true]
      intro t ht
      have := hc t ht
      cases hn : (p.get t).isNum with
      | true => rfl
      | false => exact absurd hn this
    rw [h] at this
    cases this
  unfold CoreDomain.validate_ranges
  rw [CoreDomain.validateLoop_typeError hex]

theorem CoreModel.setAttr_traits (p : CoreModel.Persona) (s : String)
    (a : AVal) : (CoreModel.setAttr p s a).traits = p.traits := by
  unfold CoreModel.setAttr
  split <;> rfl

theorem parseTrait_some_ne_empty {t : String} {tn : TraitName}
    (h : parseTrait t = some tn) : t ≠ "" := by
  intro he
  subst he
  cases h.symm.trans (by rfl : parseTrait "" = none)

theorem dictGet_none_not_any {α : Type} {s : List (String × α)} {k : String}
    (h : dictGet s k = none) : s.any (·.1 = k) = false := by
  cases ha : s.any (·.1 = k) with
  | false => rfl
  | true =>
    obtain ⟨kv, hkv, hk⟩ := List.any_eq_true.mp ha
    simp only [decide_eq_true_eq] at hk
    unfold dictGet at h
    cases hf : s.find? (·.1 = k) with
    | some kv' => rw [hf] at h; cases h
    | none =>
      rw [List.find?_eq_none] at hf
      have := hf kv hkv
      simp [hk] at this

theorem dictInsert_of_absent {α : Type} {s : List (String × α)} {k : String}
    (h : dictGet s k = none) (v : α) : dictInsert s k v = s ++ [(k, v)] := by
  unfold dictInsert
  rw [dictGet_none_not_any h]
  simp

/-!
## Claim theorems
-/

/-- C9: for every value v in the closed interval [1.0, 5.0] and every
recognized trait name, constructing a Persona with that trait set to v
succeeds, and mutating an existing valid Persona's trait to v via
`update_trait` succeeds; in both cases the value subsequently stored in
that trait equals v exactly (and mutation leaves the other traits
untouched). -/
theorem C9_in_range_accepted (v : ℚ) (hv1 : MIN_TRAIT_VALUE ≤ v)
    (hv2 : v ≤ MAX_TRAIT_VALUE) (t : String) (tn : TraitName)
    (ht : parseTrait t = some tn) (uid : String)
    (p : CoreDomain.Persona) (hp : p.traits.inRange = true) :
    (CoreDomain.mkPersona uid (defaultTraits.toP.set tn (.num v)) =
        .ok ⟨uid, defaultTraits.toP.set tn (.num v)⟩ ∧
      (defaultTraits.toP.set tn (.num v)).get tn = .num v) ∧
    (∃ p1, Services.update_trait p t (.num v) = (.ok p1, p1) ∧
      p1.traits.get tn = .num v ∧
      ∀ t', t' ≠ tn → p1.traits.get t' = p.traits.get t') := by
  have hdef : defaultTraits.toP.inRange = true := by decide
  have hset : (defaultTraits.toP.set tn (.num v)).inRange = true :=
    PTraits.inRange_set hdef tn hv1 hv2
  have hpset : (p.traits.set tn (.num v)).inRange = true :=
    PTraits.inRange_set hp tn hv1 hv2
  refine ⟨⟨CoreDomain.mkPersona_ok_of_inRange uid hset,
    PTraits.get_set_self _ _ _⟩, ?_⟩
  refine ⟨{ p with traits := p.traits.set tn (.num v) }, ?_, ?_, ?_⟩
  · unfold Services.update_trait
    rw [ht]
    dsimp only
    rw [(CoreDomain.validate_ok_iff_inRange _).mpr hpset]
  · exact PTraits.get_set_self _ _ _
  · intro t' ht'
    exact PTraits.get_set_ne _ _ (Ne.symm ht')

/-- C9 witness: the round trip at v = 4.2 (`21/5`), trait `"openness"`, on
a default persona. -/
theorem C9_witness :
    (CoreDomain.mkPersona "u" (defaultTraits.toP.set .openness (.num (21/5))) =
        .ok ⟨"u", defaultTraits.toP.set .openness (.num (21/5))⟩ ∧
      (defaultTraits.toP.set .openness (.num (21/5))).get .openness =
        .num (21/5)) ∧
    (∃ p1, Services.update_trait ⟨"u", defaultTraits.toP⟩ "openness"
        (.num (21/5)) = (.ok p1, p1) ∧
      p1.traits.get .openness = .num (21/5) ∧
      ∀ t', t' ≠ TraitName.openness →
        p1.traits.get t' = defaultTraits.toP.get t') :=
  C9_in_range_accepted (21/5) (by norm_num [MIN_TRAIT_VALUE])
    (by norm_num [MAX_TRAIT_VALUE]) "openness" .openness rfl "u"
    ⟨"u", defaultTraits.toP⟩ (by decide)

/-- C1 counterexample: on a persona with all traits 3.0 (in range), the
`core/services` mutation service's `update_trait` with the out-of-range
value 6.0 for `"openness"` fails — but after the failed call the persona
object's `openness` holds 6.0, not its pre-call value 3.0: there is no
rollback. -/
theorem C1_counterexample :
    (Services.update_trait ⟨"u", defaultTraits.toP⟩ "openness" (.num 6)).1 =
      .error (.validationError (.personaValidation
        [.range .openness 6 MIN_TRAIT_VALUE MAX_TRAIT_VALUE])) ∧
    (Services.update_trait ⟨"u", defaultTraits.toP⟩ "openness"
        (.num 6)).2.traits.get .openness = .num 6 ∧
    defaultTraits.toP.get .openness = .num 3 ∧
    (PVal.num 6 : PVal) ≠ .num 3 :=
  ⟨rfl, rfl, rfl, by decide⟩

/-- C1 amended: for a valid persona, a recognized trait name and a numeric
value v outside [1.0, 5.0], the primary (`core/services`) service's
`update_trait` fails with the validation error naming the rejected
trait/value/bounds, but performs no rollback: the persona object is left
with the trait holding v.  The legacy (`core/persona_domain_service.py`)
service instead fails with `AttributeError` on entry (its debug log reads
`persona.id`, which no persona has), leaving the persona unchanged —
so the trait does equal its pre-call value there, though the error is not a
`TraitRangeViolation`. -/
theorem C1_amended_range_violation :
    (∀ (p : CoreDomain.Persona), p.traits.inRange = true →
      ∀ (t : String) (tn : TraitName), parseTrait t = some tn →
      ∀ v : ℚ, (v < MIN_TRAIT_VALUE ∨ MAX_TRAIT_VALUE < v) →
      ∃ es, Services.update_trait p t (.num v) =
          (.error (.validationError (.personaValidation es)),
           { p with traits := p.traits.set tn (.num v) }) ∧
        VEntry.range tn v MIN_TRAIT_VALUE MAX_TRAIT_VALUE ∈ es ∧
        ({ p with traits := p.traits.set tn (.num v) } :
          CoreDomain.Persona).traits.get tn = .num v) ∧
    (∀ (p : CoreModel.Persona), CoreModel.hasattr p "id" = false →
      ∀ (t : String) (v : PVal),
        LegacyService.update_trait p t v = (.error .attributeError, p)) := by
  constructor
  · intro p hp t tn ht v hv
    have hnum : (p.traits.set tn (.num v)).allNum = true :=
      PTraits.allNum_set (PTraits.allNum_of_inRange hp) tn v
    have hnotin : (p.traits.set tn (.num v)).inRange = false := by
      cases hr : (p.traits.set tn (.num v)).inRange with
      | false => rfl
      | true =>
        rw [PTraits.inRange_iff] at hr
        obtain ⟨q, hq, hq1, hq2⟩ := hr tn
        rw [PTraits.get_set_self] at hq
        cases hq
        rcases hv with hv | hv
        · exact absurd hq1 (not_le.mpr hv)
        · exact absurd hq2 (not_le.mpr hv)
    obtain ⟨herr, -⟩ := CoreModel.validate_ranges_of_not_inRange hnotin
    refine ⟨CoreModel.validateLoop (p.traits.set tn (.num v)) orderedTraits,
      ?_, ?_, PTraits.get_set_self _ _ _⟩
    · unfold Services.update_trait
      rw [ht]
      dsimp only
      rw [CoreDomain.validate_ranges_of_allNum hnum, herr]
    · rw [CoreModel.mem_validateLoop_range_iff]
      exact ⟨mem_orderedTraits tn, PTraits.get_set_self _ _ _, rfl, rfl, hv⟩
  · intro p hid t v
    unfold LegacyService.update_trait
    rw [if_pos (by rw [hid]; exact Bool.false_ne_true)]

/-- C6 counterexample: the legacy service's
`update_trait(p, "not_a_trait", 3.0)` on a fresh default persona fails with
`AttributeError` (raised by the entry debug log's `persona.id`), not with
`TraitNotFound` — though the persona is indeed left unchanged. -/
theorem C6_counterexample :
    LegacyService.update_trait samplePersona "not_a_trait" (.num 3) =
      (.error .attributeError, samplePersona) ∧
    LErr.attributeError ≠ LErr.traitNotFound :=
  ⟨rfl, by decide⟩

/-- C6 amended: the primary (`core/services`) service rejects every name
outside the five recognized trait names with `TraitNotFound`, leaving the
persona untouched; the legacy service instead fails with `AttributeError`
at entry (reading `persona.id`) for every persona without an `id`
attribute — whatever the trait name — also leaving the persona untouched. -/
theorem C6_amended_trait_not_found :
    (∀ (p : CoreDomain.Persona) (t : String) (v : PVal), t ∉ TRAIT_NAMES →
      Services.update_trait p t v = (.error .traitNotFound, p)) ∧
    (∀ (p : CoreModel.Persona), CoreModel.hasattr p "id" = false →
      ∀ (t : String) (v : PVal),
        LegacyService.update_trait p t v = (.error .attributeError, p)) := by
  constructor
  · intro p t v ht
    unfold Services.update_trait
    rw [(parseTrait_eq_none_iff t).mpr ht]
  · intro p hid t v
    unfold LegacyService.update_trait
    rw [if_pos (by rw [hid]; exact Bool.false_ne_true)]

/-- A numeric row injected into Python values has only numeric fields. -/
theorem Traits.toP_allNum (ts : Traits) : ts.toP.allNum = true := by
  rw [PTraits.allNum, List.all_eq_true]
  intro t ht
  rw [Traits.toP_get]
  rfl

/-- C4 counterexample: constructing the `core/domain` Persona with a
non-numeric `openness` value fails with `TypeError` — not with a
`TraitRangeViolation`-style validation error carrying a combined message.
(The legacy `core/persona_model.py` dataclass does produce a combined
`PersonaValidationError`, but its entry for the non-numeric trait names
only the trait and the value's type — not the value and not the bounds.) -/
theorem C4_counterexample :
    CoreDomain.mkPersona "u"
        { defaultTraits.toP with openness := .nonNum "str" } =
      .error .typeError ∧
    PyErr.typeError.isRangeViolation = false ∧
    CoreModel.mkPersona { defaultTraits.toP with openness := .nonNum "str" } =
      .error (.personaValidation [.notNumber .openness "str"]) :=
  ⟨rfl, rfl, rfl⟩

/-- C4 amended: with all five supplied values numeric, construction of
either Persona model runs range validation immediately and fails with a
`PersonaValidationError` whose combined entries name exactly the offending
traits, each with its value and the bounds 1.0 and 5.0, succeeding iff all
values lie in [1.0, 5.0].  A non-numeric value, however, makes the
`core/domain` model's construction fail with a bare `TypeError` (no
combined message), while the legacy model's construction fails with a
`PersonaValidationError` whose entry for each non-numeric trait names the
trait and the value's type, but not the value and not the bounds. -/
theorem C4_amended_construction_validation :
    (∀ (uid : String) (ts : Traits), ts.inRange = true →
      CoreDomain.mkPersona uid ts.toP = .ok ⟨uid, ts.toP⟩ ∧
      CoreModel.mkPersona ts.toP = .ok ⟨ts.toP, CoreModel.freshAttrs⟩) ∧
    (∀ (uid : String) (ts : Traits), ts.inRange = false →
      ∃ es, es ≠ [] ∧
        CoreDomain.mkPersona uid ts.toP = .error (.personaValidation es) ∧
        CoreModel.mkPersona ts.toP = .error (.personaValidation es) ∧
        (∀ t q lo hi, VEntry.range t q lo hi ∈ es ↔
          (q = ts.get t ∧ lo = MIN_TRAIT_VALUE ∧ hi = MAX_TRAIT_VALUE ∧
            (ts.get t < MIN_TRAIT_VALUE ∨ MAX_TRAIT_VALUE < ts.get t))) ∧
        (∀ t ty, VEntry.notNumber t ty ∉ es)) ∧
    (∀ (uid : String) (ts : PTraits), ts.allNum = false →
      CoreDomain.mkPersona uid ts = .error .typeError) ∧
    (∀ ts : PTraits, ts.allNum = false →
      ∃ es, CoreModel.mkPersona ts = .error (.personaValidation es) ∧
        ∀ t ty, (VEntry.notNumber t ty ∈ es ↔ ts.get t = .nonNum ty)) := by
  refine ⟨?_, ?_, ?_, ?_⟩
  · intro uid ts h
    have hP : ts.toP.inRange = true := by rw [Traits.toP_inRange]; exact h
    exact ⟨CoreDomain.mkPersona_ok_of_inRange uid hP,
      CoreModel.mkPersona_of_inRange hP⟩
  · intro uid ts h
    have hP : ts.toP.inRange = false := by rw [Traits.toP_inRange]; exact h
    obtain ⟨herr, hne⟩ := CoreModel.validate_ranges_of_not_inRange hP
    refine ⟨CoreModel.validateLoop ts.toP orderedTraits, hne, ?_, ?_, ?_, ?_⟩
    · unfold CoreDomain.mkPersona
      rw [CoreDomain.validate_ranges_of_allNum (Traits.toP_allNum ts), herr]
    · unfold CoreModel.mkPersona
      rw [herr]
    · intro t q lo hi
      rw [CoreModel.mem_validateLoop_range_iff]
      rw [Traits.toP_get]
      constructor
      · rintro ⟨-, hq, hlo, hhi, hr⟩
        cases hq
        exact ⟨rfl, hlo, hhi, hr⟩
      · rintro ⟨rfl, hlo, hhi, hr⟩
        exact ⟨mem_orderedTraits t, rfl, hlo, hhi, hr⟩
    · intro t ty hmem
      rw [CoreModel.mem_validateLoop_notNumber_iff, Traits.toP_get] at hmem
      cases hmem.2
  · intro uid ts h
    unfold CoreDomain.mkPersona
    rw [CoreDomain.validate_ranges_typeError h]
  · intro ts h
    have hP : ts.inRange = false := by
      cases hr : ts.inRange with
      | false => rfl
      | true => rw [PTraits.allNum_of_inRange hr] at h; cases h
    obtain ⟨herr, -⟩ := CoreModel.validate_ranges_of_not_inRange hP
    refine ⟨CoreModel.validateLoop ts orderedTraits, ?_, ?_⟩
    · unfold CoreModel.mkPersona
      rw [herr]
    · intro t ty
      rw [CoreModel.mem_validateLoop_notNumber_iff]
      exact ⟨fun hmem => hmem.2, fun hg => ⟨mem_orderedTraits t, hg⟩⟩

/-- C8: for every non-empty userId with no stored record, the Get use
case's `execute` fails with `PersonaNotFoundError` naming that userId in
its message, and the store contents are unchanged afterwards — over either
backend. -/
theorem C8_get_absent_fails (uid : String) (huid : uid ≠ "")
    (sMem : List (String × CoreModel.Persona)) (hm : dictGet sMem uid = none)
    (sSql : SqlRepo.State) (hs : dictGet sSql uid = none) :
    GetPersonaUseCase.execute sMem uid =
      (.error (.personaNotFound ("Persona not found for user_id: " ++ uid)),
       sMem) ∧
    GetPersonaUseCase.executeSql sSql uid =
      (.error (.personaNotFound ("Persona not found for user_id: " ++ uid)),
       sSql) := by
  constructor
  · unfold GetPersonaUseCase.execute InMemoryRepo.get_persona
    rw [if_neg huid, if_neg huid, hm]
  · unfold GetPersonaUseCase.executeSql SqlRepo.get_persona
    rw [if_neg huid, hs]

/-- C8 witness: the Get use case at userId `"u"` on empty stores. -/
theorem C8_witness :
    GetPersonaUseCase.execute ([] : List (String × CoreModel.Persona)) "u" =
      (.error (.personaNotFound "Persona not found for user_id: u"), []) ∧
    GetPersonaUseCase.executeSql [] "u" =
      (.error (.personaNotFound "Persona not found for user_id: u"), []) :=
  C8_get_absent_fails "u" (by decide) [] rfl [] rfl

/-- C7: for every non-empty userId with no stored record, calling the
Get-Or-Create use case twice sequentially returns a persona both times with
identical trait values (all five equal to 3.0), and afterwards exactly one
record exists in the store for that userId (records for other user ids are
untouched). -/
theorem C7_get_or_create_idempotent (uid : String) (huid : uid ≠ "")
    (s : List (String × CoreDomain.Persona)) (habs : dictGet s uid = none) :
    ∃ p s1,
      GetOrCreatePersonaUseCase.executeMem s uid = (.ok p, s1) ∧
      GetOrCreatePersonaUseCase.executeMem s1 uid = (.ok p, s1) ∧
      p.traits = defaultTraits.toP ∧
      (s1.filter (·.1 = uid)).length = 1 ∧
      ∀ uid', uid' ≠ uid → dictGet s1 uid' = dictGet s uid' := by
  have hmk : CoreDomain.mkPersona uid defaultTraits.toP =
      .ok ⟨uid, defaultTraits.toP⟩ :=
    CoreDomain.mkPersona_ok_of_inRange uid (by decide)
  refine ⟨⟨uid, defaultTraits.toP⟩,
    dictInsert s uid ⟨uid, defaultTraits.toP⟩, ?_, ?_, rfl, ?_, ?_⟩
  · unfold GetOrCreatePersonaUseCase.executeMem InMemoryRepo.get_persona
      InMemoryRepo.save_persona
    rw [if_neg huid, if_neg huid, habs]
    dsimp only
    rw [hmk]
    dsimp only
    rw [if_neg huid]
  · unfold GetOrCreatePersonaUseCase.executeMem InMemoryRepo.get_persona
    rw [if_neg huid, if_neg huid, dictGet_insert_self]
  · rw [dictInsert_of_absent habs, List.filter_append]
    have h1 : s.filter (·.1 = uid) = [] := by
      rw [List.filter_eq_nil_iff]
      intro kv hkv
      simp only [decide_eq_true_eq]
      intro hk
      have hany : s.any (·.1 = uid) = true :=
        List.any_eq_true.mpr ⟨kv, hkv, by simp [hk]⟩
      rw [dictGet_none_not_any habs] at hany
      cases hany
    rw [h1]
    simp
  · intro uid' hne
    exact dictGet_insert_ne s uid uid' _ hne

/-- C7 witness: Get-Or-Create twice for `"u"` on an empty store. -/
theorem C7_witness :
    ∃ p s1,
      GetOrCreatePersonaUseCase.executeMem
        ([] : List (String × CoreDomain.Persona)) "u" = (.ok p, s1) ∧
      GetOrCreatePersonaUseCase.executeMem s1 "u" = (.ok p, s1) ∧
      p.traits = defaultTraits.toP ∧
      (s1.filter (·.1 = "u")).length = 1 ∧
      ∀ uid', uid' ≠ "u" → dictGet s1 uid' =
        dictGet ([] : List (String × CoreDomain.Persona)) uid' :=
  C7_get_or_create_idempotent "u" (by decide) [] rfl

/-- C10: the in-memory store holds references, not copies: `save_persona`
stores the persona object itself and `get_persona` returns that same stored
object, so an in-place mutation of the object behind the stored reference —
with no further `save` — is observable through a later `get` for the same
userId: the caller dereferencing the gotten reference sees the mutated
state, no longer the state at save time. -/
theorem C10_store_aliasing (s : List (String × ℕ)) (uid : String)
    (huid : uid ≠ "") (r : ℕ) (heap : ℕ → CoreModel.Persona)
    (pNew : CoreModel.Persona) (hchanged : pNew ≠ heap r) :
    ∃ s1, InMemoryRepo.save_persona_obj s uid r = .ok s1 ∧
      InMemoryRepo.get_persona_obj s1 uid = .ok (some r) ∧
      InMemoryRepo.mutateObj heap r pNew r = pNew ∧
      InMemoryRepo.mutateObj heap r pNew r ≠ heap r := by
  refine ⟨dictInsert s uid r, ?_, ?_, ?_, ?_⟩
  · unfold InMemoryRepo.save_persona_obj
    rw [if_neg huid]
  · unfold InMemoryRepo.get_persona_obj
    rw [if_neg huid, dictGet_insert_self]
  · unfold InMemoryRepo.mutateObj
    rw [if_pos rfl]
  · unfold InMemoryRepo.mutateObj
    rw [if_pos rfl]
    exact hchanged

/-- C5: for every stored persona and every valid update (recognized trait
name, numeric in-range value), the Update use case performs get, mutate,
save, then a second get: the final store state is the saved row, and the
returned persona is exactly what `get_persona` reads back from the store
after the save — carrying the updated trait value and the other four
values of the stored row. -/
theorem C5_update_returns_refreshed (uid t : String) (tn : TraitName)
    (v : ℚ) (huid : uid ≠ "") (ht : parseTrait t = some tn)
    (hv1 : MIN_TRAIT_VALUE ≤ v) (hv2 : v ≤ MAX_TRAIT_VALUE)
    (s : SqlRepo.State) (hvalid : sqlStoreValid s)
    (row : Traits) (hrow : dictGet s uid = some row) :
    ∃ p s1,
      UpdatePersonaUseCase.execute s uid t (.num v) = (.ok (some p), s1) ∧
      s1 = dictInsert s uid (row.set tn v) ∧
      p.traits = (row.set tn v).toP ∧
      SqlRepo.get_persona s1 uid = .ok (some p) ∧
      p.traits.get tn = .num v ∧
      ∀ t', t' ≠ tn → p.traits.get t' = .num (row.get t') := by
  have ht0 : t ≠ "" := parseTrait_some_ne_empty ht
  have hrowValid : row.inRange = true := hvalid (uid, row) (dictGet_mem hrow)
  have hget1 : SqlRepo.get_persona s uid =
      .ok (some ⟨row.toP, CoreModel.freshAttrs⟩) := by
    rw [SqlRepo.get_persona_of_valid hvalid, hrow]
    rfl
  have hp1 : (row.toP.set tn (.num v)).inRange = true :=
    PTraits.inRange_set (by rw [Traits.toP_inRange]; exact hrowValid) tn hv1 hv2
  have hsvc : Services.update_trait_on_model ⟨row.toP, CoreModel.freshAttrs⟩
      t (.num v) =
      (.ok ⟨row.toP.set tn (.num v), CoreModel.freshAttrs⟩,
       ⟨row.toP.set tn (.num v), CoreModel.freshAttrs⟩) := by
    unfold Services.update_trait_on_model
    rw [ht]
    dsimp only
    rw [(CoreModel.validate_ranges_ok_iff _).mpr hp1]
  have hsave : SqlRepo.save_persona s uid (row.toP.set tn (.num v)) =
      .ok (dictInsert s uid (row.set tn v)) := by
    unfold SqlRepo.save_persona
    rw [if_neg huid, ← Traits.toP_set, Traits.toQ_toP]
  have hnewValid : (row.set tn v).inRange = true :=
    Traits.inRange_set_q hrowValid tn hv1 hv2
  have hvalid1 : sqlStoreValid (dictInsert s uid (row.set tn v)) :=
    sqlStoreValid_insert hvalid hnewValid uid
  have hget2 : SqlRepo.get_persona (dictInsert s uid (row.set tn v)) uid =
      .ok (some ⟨(row.set tn v).toP, CoreModel.freshAttrs⟩) := by
    rw [SqlRepo.get_persona_of_valid hvalid1, dictGet_insert_self]
    rfl
  refine ⟨⟨(row.set tn v).toP, CoreModel.freshAttrs⟩,
    dictInsert s uid (row.set tn v), ?_, rfl, rfl, hget2, ?_, ?_⟩
  · unfold UpdatePersonaUseCase.execute
    rw [if_neg huid, if_neg ht0]
    dsimp only
    rw [hget1]
    dsimp only
    rw [hsvc]
    dsimp only
    rw [hsave]
    dsimp only
    rw [hget2]
  · rw [Traits.toP_set, PTraits.get_set_self]
  · intro t' ht'
    rw [Traits.toP_set, PTraits.get_set_ne _ _ (Ne.symm ht'), Traits.toP_get]

theorem WiringA.step_preserves_valid {s : SqlRepo.State} (h : sqlStoreValid s)
    (op : Op) :
    sqlStoreValid (WiringA.step s op).2 ∧
      ∀ ts, (WiringA.step s op).1 = some ts → ts.inRange = true := by
  cases op with
  | getOrCreate uid =>
    unfold WiringA.step GetOrCreatePersonaUseCase.executeSql
    dsimp only
    by_cases huid : uid = ""
    · rw [if_pos huid]
      exact ⟨h, by intro ts hts; cases hts⟩
    · rw [if_neg huid, SqlRepo.get_persona_of_valid h]
      cases hg : dictGet s uid with
      | some row =>
        simp only [Option.map_some']
        refine ⟨h, ?_⟩
        intro ts hts
        obtain rfl := Option.some_inj.mp hts
        rw [Traits.toP_inRange]
        exact h (uid, row) (dictGet_mem hg)
      | none =>
        simp only [Option.map_none']
        rw [CoreDomain.mkPersona_ok_of_inRange uid (by decide)]
        dsimp only
        have hsave : SqlRepo.save_persona s uid defaultTraits.toP =
            .ok (dictInsert s uid defaultTraits) := by
          unfold SqlRepo.save_persona
          rw [if_neg huid, Traits.toQ_toP]
        rw [hsave]
        dsimp only
        refine ⟨sqlStoreValid_insert h (by decide) uid, ?_⟩
        intro ts hts
        obtain rfl := Option.some_inj.mp hts
        decide
  | get uid =>
    unfold WiringA.step GetPersonaUseCase.executeSql
    dsimp only
    by_cases huid : uid = ""
    · rw [if_pos huid]
      exact ⟨h, by intro ts hts; cases hts⟩
    · rw [if_neg huid, SqlRepo.get_persona_of_valid h]
      cases hg : dictGet s uid with
      | some row =>
        simp only [Option.map_some']
        refine ⟨h, ?_⟩
        intro ts hts
        obtain rfl := Option.some_inj.mp hts
        rw [Traits.toP_inRange]
        exact h (uid, row) (dictGet_mem hg)
      | none =>
        simp only [Option.map_none']
        exact ⟨h, by intro ts hts; cases hts⟩
  | update uid t v =>
    unfold WiringA.step UpdatePersonaUseCase.execute
    dsimp only
    by_cases huid : uid = ""
    · rw [if_pos huid]
      exact ⟨h, by intro ts hts; cases hts⟩
    · rw [if_neg huid]
      by_cases ht : t = ""
      · rw [if_pos ht]
        exact ⟨h, by intro ts hts; cases hts⟩
      · rw [if_neg ht]
        cases v with
        | nonNum ty =>
          dsimp only
          exact ⟨h, by intro ts hts; cases hts⟩
        | num q =>
          dsimp only
          rw [SqlRepo.get_persona_of_valid h]
          cases hg : dictGet s uid with
          | none =>
            simp only [Option.map_none']
            exact ⟨h, by intro ts hts; cases hts⟩
          | some row =>
            simp only [Option.map_some']
            unfold Services.update_trait_on_model
            cases hpt : parseTrait t with
            | none =>
              dsimp only
              exact ⟨h, by intro ts hts; cases hts⟩
            | some tn =>
              dsimp only
              cases hval : CoreModel.validate_ranges
                  (row.toP.set tn (.num q)) with
              | error e =>
                dsimp only
                exact ⟨h, by intro ts hts; cases hts⟩
              | ok u =>
                cases u
                have hir : (row.set tn q).inRange = true := by
                  rw [← Traits.toP_inRange, Traits.toP_set,
                    ← CoreModel.validate_ranges_ok_iff]
                  exact hval
                dsimp only
                have hsave : SqlRepo.save_persona s uid
                    (row.toP.set tn (.num q)) =
                    .ok (dictInsert s uid (row.set tn q)) := by
                  unfold SqlRepo.save_persona
                  rw [if_neg huid, ← Traits.toP_set, Traits.toQ_toP]
                rw [hsave]
                dsimp only
                have hvalid1 : sqlStoreValid (dictInsert s uid (row.set tn q)) :=
                  sqlStoreValid_insert h hir uid
                rw [SqlRepo.get_persona_of_valid hvalid1, dictGet_insert_self]
                dsimp only
                refine ⟨hvalid1, ?_⟩
                intro ts hts
                obtain rfl := Option.some_inj.mp hts
                rw [Traits.toP_inRange]
                exact hir

theorem InMemoryRepo.get_persona_of_ne {α : Type} (s : List (String × α))
    {uid : String} (h : uid ≠ "") :
    InMemoryRepo.get_persona s uid = .ok (dictGet s uid) := by
  unfold InMemoryRepo.get_persona
  rw [if_neg h]

theorem InMemoryRepo.save_persona_of_ne {α : Type} (s : List (String × α))
    {uid : String} (h : uid ≠ "") (p : α) :
    InMemoryRepo.save_persona s uid p = .ok (dictInsert s uid p) := by
  unfold InMemoryRepo.save_persona
  rw [if_neg h]

theorem WiringB.step_preserves_mem {s : List (String × CoreModel.Persona)}
    (h : memStoreValid s) (op : Op) :
    memStoreValid (WiringB.step s op).2 ∧
      ∀ ts, (WiringB.step s op).1 = some ts → ts.inRange = true := by
  cases op with
  | getOrCreate uid =>
    unfold WiringB.step AppGetOrCreatePersonaUseCase.execute
    dsimp only
    by_cases huid : uid = ""
    · rw [if_pos huid]
      exact ⟨h, by intro ts hts; cases hts⟩
    · rw [if_neg huid, InMemoryRepo.get_persona_of_ne s huid]
      cases hg : dictGet s uid with
      | some p =>
        dsimp only
        refine ⟨h, ?_⟩
        intro ts hts
        obtain rfl := Option.some_inj.mp hts
        exact h (uid, p) (dictGet_mem hg)
      | none =>
        dsimp only
        rw [CoreModel.mkPersona_of_inRange (by decide)]
        dsimp only
        rw [InMemoryRepo.save_persona_of_ne s huid]
        dsimp only
        refine ⟨memStoreValid_insert h (by decide) uid, ?_⟩
        intro ts hts
        obtain rfl := Option.some_inj.mp hts
        decide
  | get uid =>
    unfold WiringB.step GetPersonaUseCase.execute
    dsimp only
    by_cases huid : uid = ""
    · rw [if_pos huid]
      exact ⟨h, by intro ts hts; cases hts⟩
    · rw [if_neg huid, InMemoryRepo.get_persona_of_ne s huid]
      cases hg : dictGet s uid with
      | some p =>
        dsimp only
        refine ⟨h, ?_⟩
        intro ts hts
        obtain rfl := Option.some_inj.mp hts
        exact h (uid, p) (dictGet_mem hg)
      | none =>
        dsimp only
        exact ⟨h, by intro ts hts; cases hts⟩
  | update uid t v =>
    unfold WiringB.step AppUpdatePersonaUseCase.execute
    dsimp only
    by_cases huid : uid = ""
    · rw [if_pos huid]
      exact ⟨h, by intro ts hts; cases hts⟩
    · rw [if_neg huid]
      by_cases ht : t = ""
      · rw [if_pos ht]
        exact ⟨h, by intro ts hts; cases hts⟩
      · rw [if_neg ht]
        cases v with
        | nonNum ty =>
          dsimp only
          exact ⟨h, by intro ts hts; cases hts⟩
        | num q =>
          dsimp only
          rw [InMemoryRepo.get_persona_of_ne s huid]
          cases hg : dictGet s uid with
          | none =>
            dsimp only
            exact ⟨h, by intro ts hts; cases hts⟩
          | some p =>
            have hp : p.traits.inRange = true := h (uid, p) (dictGet_mem hg)
            dsimp only
            unfold LegacyService.update_trait
            cases hid : CoreModel.hasattr p "id" with
            | false =>
              rw [if_pos Bool.false_ne_true]
              dsimp only
              exact ⟨memStoreValid_insert h hp uid,
                by intro ts hts; cases hts⟩
            | true =>
              rw [if_neg (not_not_intro rfl)]
              cases hat : CoreModel.hasattr p t with
              | false =>
                rw [if_pos Bool.false_ne_true]
                dsimp only
                exact ⟨memStoreValid_insert h hp uid,
                  by intro ts hts; cases hts⟩
              | true =>
                rw [if_neg (not_not_intro rfl)]
                cases hpt : parseTrait t with
                | some tn =>
                  dsimp only
                  cases hval : CoreModel.validate_ranges
                      (p.traits.set tn (.num q)) with
                  | ok u =>
                    cases u
                    have hir : (p.traits.set tn (.num q)).inRange = true := by
                      rw [← CoreModel.validate_ranges_ok_iff]
                      exact hval
                    dsimp only
                    rw [InMemoryRepo.save_persona_of_ne _ huid]
                    dsimp only
                    refine ⟨memStoreValid_insert
                      (memStoreValid_insert h hir uid) hir uid, ?_⟩
                    intro ts hts
                    obtain rfl := Option.some_inj.mp hts
                    exact hir
                  | error e =>
                    dsimp only
                    have hroll :
                        ((p.traits.set tn (.num q)).set tn (p.traits.get tn)) =
                          p.traits := PTraits.set_rollback p.traits tn (.num q)
                    refine ⟨?_, by intro ts hts; cases hts⟩
                    refine memStoreValid_insert h ?_ uid
                    show ((p.traits.set tn (.num q)).set tn
                      (p.traits.get tn)).inRange = true
                    rw [hroll]
                    exact hp
                | none =>
                  dsimp only
                  rw [CoreModel.setAttr_traits,
                    (CoreModel.validate_ranges_ok_iff _).mpr hp]
                  dsimp only
                  rw [InMemoryRepo.save_persona_of_ne _ huid]
                  dsimp only
                  have hsa : (CoreModel.setAttr p t (.numA q)).traits.inRange =
                      true := by
                    rw [CoreModel.setAttr_traits]
                    exact hp
                  refine ⟨memStoreValid_insert
                    (memStoreValid_insert h hsa uid) hsa uid, ?_⟩
                  intro ts hts
                  obtain rfl := Option.some_inj.mp hts
                  exact hsa

/-- C2: for both application wirings, run from any store satisfying the
trait invariant, every store state reachable by a sequence of
get-or-create/get/update operations still satisfies the invariant, and
every persona returned to a caller has all five trait values in
[1.0, 5.0] — no operation of the pipeline ever persists in the store, or
returns to its caller, a persona violating the invariant. -/
theorem C2_pipeline_invariant :
    (∀ (ops : List Op) (s : SqlRepo.State), sqlStoreValid s →
      sqlStoreValid (WiringA.run s ops) ∧
        ∀ ts ∈ WiringA.outputs s ops, ts.inRange = true) ∧
    (∀ (ops : List Op) (s : List (String × CoreModel.Persona)),
      memStoreValid s →
      memStoreValid (WiringB.run s ops) ∧
        ∀ ts ∈ WiringB.outputs s ops, ts.inRange = true) := by
  constructor
  · intro ops
    induction ops with
    | nil =>
      intro s hs
      exact ⟨hs, by intro ts hts; cases hts⟩
    | cons op rest ih =>
      intro s hs
      obtain ⟨h1, h2⟩ := WiringA.step_preserves_valid hs op
      obtain ⟨h3, h4⟩ := ih (WiringA.step s op).2 h1
      refine ⟨h3, ?_⟩
      intro ts hts
      rw [WiringA.outputs] at hts
      rcases List.mem_append.mp hts with hts | hts
      · cases ho : (WiringA.step s op).1 with
        | none => rw [ho] at hts; cases hts
        | some ts0 =>
          rw [ho] at hts
          rw [List.mem_singleton] at hts
          subst hts
          exact h2 _ ho
      · exact h4 ts hts
  · intro ops
    induction ops with
    | nil =>
      intro s hs
      exact ⟨hs, by intro ts hts; cases hts⟩
    | cons op rest ih =>
      intro s hs
      obtain ⟨h1, h2⟩ := WiringB.step_preserves_mem hs op
      obtain ⟨h3, h4⟩ := ih (WiringB.step s op).2 h1
      refine ⟨h3, ?_⟩
      intro ts hts
      rw [WiringB.outputs] at hts
      rcases List.mem_append.mp hts with hts | hts
      · cases ho : (WiringB.step s op).1 with
        | none => rw [ho] at hts; cases hts
        | some ts0 =>
          rw [ho] at hts
          rw [List.mem_singleton] at hts
          subst hts
          exact h2 _ ho
      · exact h4 ts hts

/-- C2 witness: the invariant along the concrete trace
get-or-create, rejected out-of-range update, get — for `"u"` from the
empty store, in both wirings. -/
theorem C2_witness :
    (sqlStoreValid (WiringA.run []
        [Op.getOrCreate "u", Op.update "u" "openness" (.num 6), Op.get "u"]) ∧
      ∀ ts ∈ WiringA.outputs []
        [Op.getOrCreate "u", Op.update "u" "openness" (.num 6), Op.get "u"],
        ts.inRange = true) ∧
    (memStoreValid (WiringB.run []
        [Op.getOrCreate "u", Op.update "u" "openness" (.num 6), Op.get "u"]) ∧
      ∀ ts ∈ WiringB.outputs []
        [Op.getOrCreate "u", Op.update "u" "openness" (.num 6), Op.get "u"],
        ts.inRange = true) :=
  ⟨C2_pipeline_invariant.1 _ [] (by intro kv hkv; cases hkv),
   C2_pipeline_invariant.2 _ [] (by intro kv hkv; cases hkv)⟩

/-- C3 counterexample: the two backends do not produce identical observable
results.  (i) After the same single save, the in-memory backend's `list`
returns `(userId, persona)` pairs while the relational backend's `list`
returns bare personas with no user ids.  (ii) `get("")` raises `ValueError`
in the in-memory backend but returns absent in the relational one.
(iii) After saving a persona holding an out-of-range trait (obtainable from
the no-rollback mutation service), a subsequent `get` returns it from the
in-memory backend but raises `DatabaseError` from the relational one. -/
theorem C3_counterexample :
    memObsList (dictInsert [] "u" samplePersona) =
      [ObsItem.withUid "u" defaultTraits.toP] ∧
    sqlObsList (dictInsert [] "u" defaultTraits) =
      some [ObsItem.bare defaultTraits.toP] ∧
    some (memObsList (dictInsert [] "u" samplePersona)) ≠
      sqlObsList (dictInsert [] "u" defaultTraits) ∧
    InMemoryRepo.get_persona ([] : List (String × CoreModel.Persona)) "" =
      .error (.valueError "user_id cannot be empty or None") ∧
    SqlRepo.get_persona [] "" = .ok none ∧
    InMemoryRepo.save_persona [] "u" invalidPersona =
      .ok [("u", invalidPersona)] ∧
    InMemoryRepo.get_persona [("u", invalidPersona)] "u" =
      .ok (some invalidPersona) ∧
    SqlRepo.save_persona ([] : SqlRepo.State) "u" invalidPersona.traits =
      .ok [("u", invalidRow)] ∧
    SqlRepo.get_persona [("u", invalidRow)] "u" = .error .databaseError :=
  ⟨rfl, rfl, by decide, rfl, rfl, rfl, rfl, rfl, rfl⟩

/-- C3 amended: restricted to single-caller `get`/`save`/`list` sequences
with non-empty user ids in which every saved persona satisfies the trait
invariant, the two backends produce identical observations once `list`
results are projected to trait records; both `list` operations default
`limit`/`offset` to 100/0.  In their native shapes the `list` results still
differ: the in-memory backend returns `(userId, persona)` pairs, the
relational backend returns personas without user ids. -/
theorem C3_amended_backend_equivalence :
    (∀ (cs : List Call) (sm : List (String × CoreModel.Persona))
        (sq : SqlRepo.State),
      (∀ c ∈ cs, callOK c) → memStoreValid sm → sqlStoreValid sq →
      sm.map (fun kv => (kv.1, kv.2.traits)) =
        sq.map (fun kv => (kv.1, kv.2.toP)) →
      (memRun sm cs).1 = (sqlRun sq cs).1) ∧
    (∀ s : List (String × CoreModel.Persona),
      InMemoryRepo.list_personas_default s =
        InMemoryRepo.list_personas s 100 0) ∧
    (∀ s : SqlRepo.State,
      SqlRepo.list_personas_default s = SqlRepo.list_personas s 100 0) ∧
    (memObsList (dictInsert [] "u" samplePersona) =
        [ObsItem.withUid "u" defaultTraits.toP] ∧
      sqlObsList (dictInsert [] "u" defaultTraits) =
        some [ObsItem.bare defaultTraits.toP]) := by
  refine ⟨?_, fun s => rfl, fun s => rfl, rfl, rfl⟩
  intro cs
  induction cs with
  | nil => intro sm sq hok hvm hvq hrel; rfl
  | cons c cs ih =>
    intro sm sq hok hvm hvq hrel
    have hokc : callOK c := hok c (List.mem_cons_self c cs)
    have hokcs : ∀ c' ∈ cs, callOK c' :=
      fun c' hc' => hok c' (List.mem_cons_of_mem c hc')
    cases c with
    | saveC uid p =>
      obtain ⟨huid, hp⟩ := hokc
      obtain ⟨row, hq1, hq2, hq3, hq4⟩ :=
        SqlRepo.save_persona_of_inRange hp sq huid
      have hcm : memCall sm (.saveC uid p) =
          (.savedOk, dictInsert sm uid p) := by
        unfold memCall
        dsimp only
        rw [InMemoryRepo.save_persona_of_ne sm huid]
      have hcq : sqlCall sq (.saveC uid p) =
          (.savedOk, dictInsert sq uid row) := by
        unfold sqlCall
        dsimp only
        rw [hq4]
      have hrel1 : (dictInsert sm uid p).map (fun kv => (kv.1, kv.2.traits)) =
          (dictInsert sq uid row).map (fun kv => (kv.1, kv.2.toP)) := by
        rw [map_dictInsert, map_dictInsert, hrel, hq2]
      unfold memRun sqlRun
      rw [hcm, hcq]
      dsimp only
      exact congrArg (List.cons CallObs.savedOk)
        (ih (dictInsert sm uid p) (dictInsert sq uid row) hokcs
          (memStoreValid_insert hvm hp uid)
          (sqlStoreValid_insert hvq hq3 uid) hrel1)
    | getC uid =>
      have huid : uid ≠ "" := hokc
      have hmap : (dictGet sm uid).map (fun kv => kv.traits) =
          (dictGet sq uid).map (fun kv => kv.toP) := by
        rw [← dictGet_map (fun kv => kv.traits) sm uid,
          ← dictGet_map (fun kv => kv.toP) sq uid, hrel]
      have hih := ih sm sq hokcs hvm hvq hrel
      cases hm : dictGet sm uid with
      | some p =>
        cases hq : dictGet sq uid with
        | some row =>
          rw [hm, hq] at hmap
          simp only [Option.map_some', Option.some_inj] at hmap
          have hcm : memCall sm (.getC uid) = (.got p.traits, sm) := by
            unfold memCall
            dsimp only
            rw [InMemoryRepo.get_persona_of_ne sm huid, hm]
          have hcq : sqlCall sq (.getC uid) = (.got row.toP, sq) := by
            unfold sqlCall
            dsimp only
            rw [SqlRepo.get_persona_of_valid hvq, hq]
            rfl
          unfold memRun sqlRun
          rw [hcm, hcq]
          dsimp only
          rw [hmap, hih]
        | none =>
          rw [hm, hq] at hmap
          simp only [Option.map_some', Option.map_none'] at hmap
          cases hmap
      | none =>
        cases hq : dictGet sq uid with
        | some row =>
          rw [hm, hq] at hmap
          simp only [Option.map_some', Option.map_none'] at hmap
          cases hmap
        | none =>
          have hcm : memCall sm (.getC uid) = (.gotNone, sm) := by
            unfold memCall
            dsimp only
            rw [InMemoryRepo.get_persona_of_ne sm huid, hm]
          have hcq : sqlCall sq (.getC uid) = (.gotNone, sq) := by
            unfold sqlCall
            dsimp only
            rw [SqlRepo.get_persona_of_valid hvq, hq]
            rfl
          unfold memRun sqlRun
          rw [hcm, hcq]
          dsimp only
          rw [hih]
    | listC l o =>
      have hslice : ((sm.drop o).take l).map (fun kv => (kv.1, kv.2.traits)) =
          ((sq.drop o).take l).map (fun kv => (kv.1, kv.2.toP)) := by
        rw [List.map_take, List.map_drop, List.map_take, List.map_drop, hrel]
      have htraits : ((sm.drop o).take l).map (fun kv => kv.2.traits) =
          ((sq.drop o).take l).map (fun kv => kv.2.toP) := by
        have hsnd := congrArg (List.map Prod.snd) hslice
        simpa [List.map_map, Function.comp] using hsnd
      have hih := ih sm sq hokcs hvm hvq hrel
      have hcm : memCall sm (.listC l o) =
          (.listed (((sm.drop o).take l).map fun kv => kv.2.traits), sm) := rfl
      have hcq : sqlCall sq (.listC l o) =
          (.listed (((sq.drop o).take l).map fun kv => kv.2.toP), sq) := by
        unfold sqlCall
        dsimp only
        rw [SqlRepo.list_personas_of_valid hvq]
        dsimp only
        rw [List.map_map]
        rfl
      unfold memRun sqlRun
      rw [hcm, hcq]
      dsimp only
      rw [htraits, hih]

/-- C5 witness: updating `"openness"` to 4.2 for `"u"` over a store holding
the default row. -/
theorem C5_witness :
    ∃ p s1,
      UpdatePersonaUseCase.execute [("u", defaultTraits)] "u" "openness"
        (.num (21/5)) = (.ok (some p), s1) ∧
      s1 = dictInsert [("u", defaultTraits)] "u"
        (defaultTraits.set .openness (21/5)) ∧
      p.traits = (defaultTraits.set .openness (21/5)).toP ∧
      SqlRepo.get_persona s1 "u" = .ok (some p) ∧
      p.traits.get .openness = .num (21/5) ∧
      ∀ t', t' ≠ TraitName.openness →
        p.traits.get t' = .num (defaultTraits.get t') :=
  C5_update_returns_refreshed "u" "openness" .openness (21/5) (by decide)
    rfl (by norm_num [MIN_TRAIT_VALUE]) (by norm_num [MAX_TRAIT_VALUE])
    [("u", defaultTraits)]
    (by intro kv hkv; rw [List.mem_singleton] at hkv; subst hkv; decide)
    defaultTraits rfl

/-- C10 witness: save reference 0 under `"u"`, mutate the object behind it
to an openness of 4.0, observe the change through `get` without saving. -/
theorem C10_witness :
    ∃ s1, InMemoryRepo.save_persona_obj [] "u" 0 = .ok s1 ∧
      InMemoryRepo.get_persona_obj s1 "u" = .ok (some 0) ∧
      InMemoryRepo.mutateObj (fun _ => samplePersona) 0
        ⟨defaultTraits.toP.set .openness (.num 4), CoreModel.freshAttrs⟩ 0 =
        ⟨defaultTraits.toP.set .openness (.num 4), CoreModel.freshAttrs⟩ ∧
      InMemoryRepo.mutateObj (fun _ => samplePersona) 0
        ⟨defaultTraits.toP.set .openness (.num 4), CoreModel.freshAttrs⟩ 0 ≠
        (fun _ => samplePersona) 0 :=
  C10_store_aliasing [] "u" (by decide) 0 (fun _ => samplePersona)
    ⟨defaultTraits.toP.set .openness (.num 4), CoreModel.freshAttrs⟩
    (by decide)

end PersonaEngine
